import Mathlib

/-!
Shallow embedding of the hygieia repository's conversational-assistant core:
the credential vault (lib/encryption), the chat turn orchestrator
(app/api/chat/route.ts POST), the profile upsert (app/api/profile/route.ts PUT)
and the client-side conversation merge (app/lib/hooks/useChat.ts).

Modelling conventions:
* JavaScript strings are `List Char`; byte buffers are `List Nat` with the
  invariant `b < 256` carried as hypotheses where it matters.
* The AES-256-CBC block primitive from node:crypto is an external collaborator;
  it is a section parameter `encB`/`decB` together with the hypotheses that the
  keyed block cipher is length-preserving, byte-valid and invertible.
  Hex decoding is modelled strictly (invalid hex is rejected); node wraps every
  cipher-level rejection into the single decryption failure the route observes.
* The relational store is an explicit `Db` record; Prisma's `createdAt`
  ordering coincides with list insertion order because every write stamps the
  monotone `now` parameter.
* `createSystemPrompt` renders a fixed instruction text whose content no claim
  depends on; it is a parameter `sysPrompt` of the orchestrator section.
-/

namespace Hygieia

/-- JavaScript strings, modelled as their character lists. -/
abbrev Str := List Char

/-- Whitespace test used by `String.prototype.trim` (common cases). -/
def jsSpace (c : Char) : Bool :=
  c = ' ' || c = '\t' || c = '\n' || c = '\r'

/-- `s.trim()` : drop leading and trailing whitespace. -/
def jsTrim (s : Str) : Str :=
  ((s.dropWhile jsSpace).reverse.dropWhile jsSpace).reverse

/-- `s.split(sep)` for a one-character separator, with JavaScript's
semantics: empty fields are kept, `"".split(sep) = [""]`. -/
def jsSplit (sep : Char) : Str → List Str
  | [] => [[]]
  | c :: rest =>
    match jsSplit sep rest with
    | [] => [[c]]
    | f :: fs => if c = sep then [] :: f :: fs else (c :: f) :: fs

/-- `s.toLowerCase()` (ASCII range, which is all the route compares). -/
def jsToLower (s : Str) : Str := s.map Char.toLower

/-- `arr.join(sep)` for a one-character separator. -/
def joinSep (sep : Char) : List Str → Str
  | [] => []
  | [f] => f
  | f :: g :: fs => f ++ sep :: joinSep sep (g :: fs)

/-- Lower-case hex digit for a nibble, as `Buffer.toString('hex')` emits. -/
def hexDigitChar (d : Nat) : Char :=
  if d < 10 then Char.ofNat (48 + d) else Char.ofNat (87 + d)

/-- Value of one hex digit character; both cases accepted as by `Buffer.from`. -/
def hexCharVal (c : Char) : Option Nat :=
  if 48 ≤ c.toNat ∧ c.toNat ≤ 57 then some (c.toNat - 48)
  else if 97 ≤ c.toNat ∧ c.toNat ≤ 102 then some (c.toNat - 87)
  else if 65 ≤ c.toNat ∧ c.toNat ≤ 70 then some (c.toNat - 55)
  else none

/-- `buf.toString('hex')`. -/
def hexEncode : List Nat → Str
  | [] => []
  | b :: bs => hexDigitChar (b / 16) :: hexDigitChar (b % 16) :: hexEncode bs

/-- The hex decoding of `Buffer.from(s, 'hex')` and of
`decipher.update(s, 'hex')`: node never fails here, it truncates at the
first digit pair containing an invalid character and drops a dangling
nibble. -/
def bufFromHex : Str → List Nat
  | c1 :: c2 :: rest =>
    match hexCharVal c1, hexCharVal c2 with
    | some h, some l => (16 * h + l) :: bufFromHex rest
    | _, _ => []
  | _ => []

/-- Bytewise xor of two equal-length blocks. -/
def xorBlock (a b : List Nat) : List Nat := List.zipWith (fun x y => x ^^^ y) a b

/-- PKCS#7 padding to the 16-byte AES block size, as node's cipher applies. -/
def pkcs7pad (x : List Nat) : List Nat :=
  let p := 16 - x.length % 16
  x ++ List.replicate p p

/-- PKCS#7 unpadding; `decipher.final` rejects invalid padding. -/
def pkcs7unpad (x : List Nat) : Option (List Nat) :=
  match x.getLast? with
  | none => none
  | some p =>
    if 1 ≤ p ∧ p ≤ 16 ∧ p ≤ x.length ∧ (x.drop (x.length - p)).all (· = p) then
      some (x.take (x.length - p))
    else none

/-- Fuel-driven worker for 16-byte chunking (structural recursion on the
fuel, so it evaluates inside the kernel). -/
def chunksF : Nat → List Nat → List (List Nat)
  | 0, _ => []
  | n + 1, l => if l = [] then [] else l.take 16 :: chunksF n (l.drop 16)

/-- Split a byte string into 16-byte blocks (last block possibly short). -/
def chunks16 (l : List Nat) : List (List Nat) := chunksF l.length l

/-- Decryption failures: the route wraps every cipher-level rejection into
one `Failed to decrypt API key` error. -/
inductive DecryptionError where
  | failed
deriving DecidableEq

section Vault

-- The keyed AES block encryption and decryption, abstract: the key is
-- process-wide state loaded once, so the keyed cipher is a fixed pair of
-- functions on one 16-byte block, inverse to each other.
variable (encB : List Nat → List Nat)
variable (decB : List Nat → List Nat)

/-- CBC encryption over a block list, chaining from `prev` (initially the IV). -/
def cbcEncrypt (prev : List Nat) : List (List Nat) → List (List Nat)
  | [] => []
  | b :: bs =>
    let c := encB (xorBlock b prev)
    c :: cbcEncrypt c bs

/-- CBC decryption over a block list, chaining from `prev` (initially the IV). -/
def cbcDecrypt (prev : List Nat) : List (List Nat) → List (List Nat)
  | [] => []
  | c :: cs => xorBlock (decB c) prev :: cbcDecrypt c cs

/-- `encryptApiKey` from lib/encryption: a fresh random 16-byte IV (here an
explicit argument, since each call draws a fresh one), AES-256-CBC over the
padded plaintext bytes, output `hex(iv) ++ ":" ++ hex(ciphertext)`. -/
def encryptApiKey (iv : List Nat) (text : List Nat) : Str :=
  hexEncode iv ++ ':' :: hexEncode (cbcEncrypt encB iv (chunks16 (pkcs7pad text))).flatten

/-- `decryptApiKey` from lib/encryption: split on `:`, require exactly two
fields (`parts.length !== 2` throws). `Buffer.from(parts[0], 'hex')`
truncates rather than failing; `createDecipheriv` then rejects an IV that
is not 16 bytes. `decipher.update(encrypted, 'hex')` rejects an odd-length
hex string and truncates invalid digits; `decipher.final` rejects a
non-block-aligned input and bad padding. Every throw is caught and wrapped
into the single decryption error. -/
def decryptApiKey (s : Str) : Except DecryptionError (List Nat) :=
  match jsSplit ':' s with
  | [ivHex, ctHex] =>
    if (bufFromHex ivHex).length = 16 then
      if ctHex.length % 2 = 0 then
        if (bufFromHex ctHex).length % 16 = 0 then
          match pkcs7unpad (cbcDecrypt decB (bufFromHex ivHex)
              (chunks16 (bufFromHex ctHex))).flatten with
          | some pt => .ok pt
          | none => .error .failed
        else .error .failed
      else .error .failed
    else .error .failed
  | _ => .error .failed

end Vault

/-- `validateOpenAIApiKey`: shape check only, `sk-` lead-in and length ≥ 20. -/
def validateOpenAIApiKey (k : Str) : Bool :=
  decide (k.take 3 = "sk-".data) && decide (20 ≤ k.length)

/-- Is every character of the string a hex digit? -/
def isHexStr (s : Str) : Bool := s.all (fun c => (hexCharVal c).isSome)

/-- Well-formedness of a persisted credential string, written from the spec's
shape description: exactly one `:` separator, hence exactly two fields, the
IV field 32 hex characters (16 bytes) and the ciphertext field hex of a
whole number of 16-byte blocks. -/
def wellFormedEncrypted (s : Str) : Bool :=
  decide (s.count ':' = 1) &&
  (let a := s.takeWhile (fun c => !(c == ':'))
   let b := (s.dropWhile (fun c => !(c == ':'))).drop 1
   isHexStr a && isHexStr b && decide (a.length = 32) &&
     decide (b.length % 32 = 0))

/-! ## Store rows and the database state (prisma schema) -/

/-- Profile projection fed to the prompt renderer (`getUserContext`). -/
structure CtxProfile where
  healthGoal : Option Str
  dietaryPreferences : List Str
  fitnessLevel : Option Str
deriving DecidableEq

/-- Pantry item projection fed to the prompt renderer. -/
structure CtxItem where
  itemName : Str
  category : Str
  notes : Option Str
deriving DecidableEq

/-- The `UserContext` record assembled for a turn. -/
structure UserContext where
  profile : Option CtxProfile
  pantryItems : List CtxItem
deriving DecidableEq

/-- One `{role, content}` entry of the list sent to the completion call. -/
structure MsgParam where
  role : Str
  content : Str
deriving DecidableEq

/-- A `Conversation` row. -/
structure Conversation where
  id : Str
  userId : Nat
  title : Str
  lastMessage : Option Str
  createdAt : Nat
  updatedAt : Nat
deriving DecidableEq

/-- A `ConversationMessage` row. -/
structure ChatMessage where
  id : Str
  userId : Nat
  conversationId : Str
  role : Str
  content : Str
  createdAt : Nat
deriving DecidableEq

/-- A `UserProfile` row. -/
structure ProfileRow where
  userId : Nat
  healthGoal : Option Str
  dietaryPreferences : List Str
  fitnessLevel : Option Str
  openaiApiKeyHash : Option Str
  hasApiKey : Bool
  updatedAt : Nat
deriving DecidableEq

/-- A `PantryItem` row (the fields the chat route reads). -/
structure PantryRow where
  userId : Nat
  itemName : Str
  category : Str
  notes : Option Str
deriving DecidableEq

/-- The relational store. Row lists are in insertion order, which agrees with
`createdAt` order because every write stamps the monotone `now` argument.
`nextId` models the id generator behind server-assigned ids. -/
structure Db where
  conversations : List Conversation
  messages : List ChatMessage
  profiles : List ProfileRow
  pantryItems : List PantryRow
  nextId : Nat
deriving DecidableEq

def roleUser : Str := "user".data

def roleAssistant : Str := "assistant".data

/-- `findUnique` on conversations with owner scoping (`where: {id, userId}`). -/
def findConversation (db : Db) (uid : Nat) (cid : Str) : Option Conversation :=
  db.conversations.find? (fun c => c.id == cid && c.userId == uid)

/-- `findUnique` on profiles by user id. -/
def findProfile (db : Db) (uid : Nat) : Option ProfileRow :=
  db.profiles.find? (fun p => p.userId == uid)

/-- Server-assigned conversation ids, modelled as an injective function of the
id counter; they never carry the client's local `conv_` lead-in. -/
def freshConvId (db : Db) : Str := 'i' :: 'd' :: List.replicate db.nextId 'x'

/-- Server-assigned message ids. -/
def freshMsgId (db : Db) : Str := 'm' :: List.replicate db.nextId 'x'

/-- `generateConversationTitle` from app/api/chat/route.ts: first four
space-separated words of the trimmed message, truncated to 30 characters with
`...` appended when longer, placeholder when the trimmed result is empty. -/
def generateConversationTitle (message : Str) : Str :=
  let words := joinSep ' ' ((jsSplit ' ' (jsTrim message)).take 4)
  let title :=
    if 30 < words.length then words.take 30 ++ ['.', '.', '.'] else words
  let t := jsTrim title
  if t = [] then "New Conversation".data else t

/-- The `Conversation` row `prisma.conversation.create` builds for a new
conversation: title from the message, initial last message the message text. -/
def newConversationRow (now : Nat) (db : Db) (uid : Nat) (m : Str) :
    Conversation :=
  { id := freshConvId db, userId := uid,
    title := generateConversationTitle m,
    lastMessage := some m, createdAt := now, updatedAt := now }

/-- Conversation resolution of the turn (route lines 277-312): a present,
non-blank id that an owned conversation matches is kept; anything else —
absent id, blank id, or a stale/foreign id whose owner-scoped lookup fails —
falls through to creating a fresh conversation whose title derives from the
message and whose initial last message is the message text. -/
def resolveConversation (now : Nat) (db : Db) (uid : Nat) (message : Str)
    (conversationId : Option Str) : Str × Db :=
  let valid : Option Str :=
    match conversationId with
    | none => none
    | some c =>
      if c = [] ∨ jsTrim c = [] then none
      else
        match findConversation db uid c with
        | some _ => some c
        | none => none
  match valid with
  | some c => (c, db)
  | none =>
    (freshConvId db,
     { db with
        conversations := db.conversations ++ [newConversationRow now db uid message],
        nextId := db.nextId + 1 })

/-- The `ConversationMessage` row a `create` builds. -/
def mkMessage (now : Nat) (db : Db) (uid : Nat) (cid : Str)
    (role content : Str) : ChatMessage :=
  { id := freshMsgId db, userId := uid, conversationId := cid,
    role := role, content := content, createdAt := now }

/-- `prisma.conversationMessage.create`: insert one message row. Note that
this write touches only the message table — no conversation row changes. -/
def appendMessage (now : Nat) (db : Db) (uid : Nat) (cid : Str)
    (role content : Str) : Db :=
  { db with messages := db.messages ++ [mkMessage now db uid cid role content],
            nextId := db.nextId + 1 }

/-- `prisma.conversation.update({where: {id}, data: {lastMessage, updatedAt}})`
— the denormalized update the route performs after the assistant insert. -/
def updateConversationDenorm (db : Db) (cid : Str) (content : Str)
    (now : Nat) : Db :=
  { db with conversations := db.conversations.map (fun c =>
      if c.id == cid then { c with lastMessage := some content, updatedAt := now }
      else c) }

/-- `getUserContext`: profile projection plus the owner's pantry items. The
SQL `orderBy category asc` is not modelled: the context is consumed only by
the parametric prompt renderer, which no claim inspects. -/
def getUserContext (db : Db) (uid : Nat) : UserContext :=
  { profile := (findProfile db uid).map
      (fun p => ⟨p.healthGoal, p.dietaryPreferences, p.fitnessLevel⟩),
    pantryItems := (db.pantryItems.filter (fun i => i.userId == uid)).map
      (fun i => ⟨i.itemName, i.category, i.notes⟩) }

/-- The bounded history query (route lines 337-355): the conversation's
messages `orderBy createdAt desc, take 10`, then reversed back to
chronological order and projected to `{role, content}`. -/
def recentMessagesFor (db : Db) (uid : Nat) (cid : Str) : List MsgParam :=
  ((((db.messages.filter (fun m =>
      m.conversationId == cid && m.userId == uid)).reverse).take 10).reverse).map
    (fun m => ⟨m.role, m.content⟩)

/-- The conversation id a turn resolves to (first component of the
resolution step). -/
def resolvedCid (now : Nat) (db : Db) (uid : Nat) (message : Str)
    (conversationId : Option Str) : Str :=
  (resolveConversation now db uid message conversationId).1

/-- The store state right after the turn's user-message insert (POST's `db2`:
resolution followed by `prisma.conversationMessage.create` for the user). -/
def turnUserDb (now : Nat) (db : Db) (uid : Nat) (m : Str)
    (cid : Option Str) : Db :=
  appendMessage now (resolveConversation now db uid m cid).2 uid
    (resolveConversation now db uid m cid).1 roleUser m

/-- The turn's user-message row itself. -/
def turnUserMsg (now : Nat) (db : Db) (uid : Nat) (m : Str)
    (cid : Option Str) : ChatMessage :=
  mkMessage now (resolveConversation now db uid m cid).2 uid
    (resolveConversation now db uid m cid).1 roleUser m

/-- The store state a fully successful turn ends in: assistant insert, then
the denormalized conversation update. -/
def turnSuccessDb (now : Nat) (db : Db) (uid : Nat) (m : Str)
    (cid : Option Str) (c : Str) : Db :=
  updateConversationDenorm
    (appendMessage now (turnUserDb now db uid m cid) uid
      (resolvedCid now db uid m cid) roleAssistant c)
    (resolvedCid now db uid m cid) c now

/-- The apostrophe character appearing in the fallback texts. -/
def apos : Char := Char.ofNat 39

/-- Fallback text for recipe/meal-flavored messages. -/
def fallbackRecipe : Str :=
  'I' :: apos :: "m having trouble connecting to generate a personalized recipe right now. Please try again in a moment, or check that your OpenAI API key is valid.".data

/-- Fallback text for workout/exercise-flavored messages. -/
def fallbackWorkout : Str :=
  'I' :: apos :: "m having trouble connecting to generate a personalized workout right now. Please try again in a moment, or check that your OpenAI API key is valid.".data

/-- Generic fallback text. -/
def fallbackGeneric : Str :=
  'I' :: apos :: "m having trouble processing your request right now. Please try again in a moment, or check that your OpenAI API key is configured correctly in your profile.".data

/-- `hay.includes(needle)`: substring containment. -/
def jsIncludes (needle : Str) : Str → Bool
  | [] => List.isPrefixOf needle []
  | c :: rest => List.isPrefixOf needle (c :: rest) || jsIncludes needle rest

/-- The keyword sniffing of `generateAIResponse`'s catch branch. -/
def fallbackResponse (userMessage : Str) : Str :=
  let lm := jsToLower userMessage
  if jsIncludes "recipe".data lm || jsIncludes "meal".data lm then
    fallbackRecipe
  else if jsIncludes "workout".data lm || jsIncludes "exercise".data lm then
    fallbackWorkout
  else fallbackGeneric

/-- The response of a POST /api/chat turn, with its observable status. -/
inductive ChatResult where
  | validationErr
  | credentialErr
  | completionErr
  | success (id : Str) (content : Str) (createdAt : Nat) (conversationId : Str)
deriving DecidableEq

/-- HTTP status each `ChatResult` is served with. -/
def statusCode : ChatResult → Nat
  | .validationErr => 400
  | .credentialErr => 400
  | .completionErr => 500
  | .success _ _ _ _ => 200

section Orchestrator

variable (decB : List Nat → List Nat)

-- `sysPrompt` stands for `createSystemPrompt`: a deterministic rendering of
-- the user context whose text no claim inspects.
variable (sysPrompt : UserContext → Str)

/-- `getUserOpenAIClient`: load the stored credential; absent profile, unset
flag, null/empty ciphertext, or a decryption failure all yield `none` (the
catch branch returns null). On success the decrypted key backs the client. -/
def getUserOpenAIClient (db : Db) (uid : Nat) : Option (List Nat) :=
  match findProfile db uid with
  | none => none
  | some p =>
    if p.hasApiKey then
      match p.openaiApiKeyHash with
      | none => none
      | some h =>
        if h = [] then none
        else
          match decryptApiKey decB h with
          | .ok key => some key
          | .error _ => none
    else none

/-- The ordered message list `generateAIResponse` builds for the completion
call: one system message, then the bounded history, then the user message. -/
def sentMessages (ctx : UserContext) (recent : List MsgParam)
    (userMessage : Str) : List MsgParam :=
  ⟨"system".data, sysPrompt ctx⟩ :: (recent ++ [⟨roleUser, userMessage⟩])

/-- `generateAIResponse`: invoke the completion call on the built list; a
successful empty reply becomes null (route returns 500 for it), a successful
non-empty reply is trimmed, and a thrown completion error is absorbed into
the keyword-sniffed fallback text. -/
def generateAIResponse (ai : List MsgParam → Except Unit Str)
    (userMessage : Str) (ctx : UserContext) (recent : List MsgParam) :
    Option Str :=
  match ai (sentMessages sysPrompt ctx recent userMessage) with
  | .ok r => if r = [] then none else some (jsTrim r)
  | .error _ => some (fallbackResponse userMessage)

/-- The POST /api/chat turn (route lines 260-396): validate, resolve the
conversation, persist the user message (`turnUserDb`), load the credential,
assemble context and bounded history, invoke the completion call, persist the
assistant message and update the conversation's denormalized fields
(`turnSuccessDb`), and return the message. The route's local bindings
(`currentConversationId`, the post-append store, the final store) are the
named pipeline states `resolvedCid`, `turnUserDb` and `turnSuccessDb`. -/
def POST (now : Nat) (ai : List MsgParam → Except Unit Str) (db : Db)
    (uid : Nat) (message : Str) (conversationId : Option Str) :
    ChatResult × Db :=
  if message = [] then (.validationErr, db)
  else
    match getUserOpenAIClient decB (turnUserDb now db uid message conversationId) uid with
    | none => (.credentialErr, turnUserDb now db uid message conversationId)
    | some _ =>
      match generateAIResponse sysPrompt ai message
          (getUserContext (turnUserDb now db uid message conversationId) uid)
          (recentMessagesFor (turnUserDb now db uid message conversationId) uid
            (resolvedCid now db uid message conversationId)) with
      | none => (.completionErr, turnUserDb now db uid message conversationId)
      | some c =>
        if c = [] then (.completionErr, turnUserDb now db uid message conversationId)
        else
          (.success (freshMsgId (turnUserDb now db uid message conversationId)) c now
             (resolvedCid now db uid message conversationId),
           turnSuccessDb now db uid message conversationId c)

/-- The exact list a turn hands to the completion call, built by the same
pipeline POST runs: resolve, persist the user message, then assemble. -/
def turnSent (now : Nat) (db : Db) (uid : Nat) (message : Str)
    (conversationId : Option Str) : List MsgParam :=
  sentMessages sysPrompt
    (getUserContext (turnUserDb now db uid message conversationId) uid)
    (recentMessagesFor (turnUserDb now db uid message conversationId) uid
      (resolvedCid now db uid message conversationId)) message

end Orchestrator

/-! ## Profile upsert (app/api/profile/route.ts PUT) -/

/-- The `dietaryPreferences` field of a PUT body as JSON: absent, an array,
or some non-array value — `Array.isArray` rejects the last two shapes. -/
inductive DPField where
  | missing
  | arr (xs : List Str)
  | notArray
deriving DecidableEq

/-- The parsed PUT /api/profile body; `none` is an omitted field. -/
structure ProfilePutBody where
  healthGoal : Option Str
  dietaryPreferences : DPField
  fitnessLevel : Option Str
  apiKey : Option Str
deriving DecidableEq

/-- Outcome of a profile PUT. -/
inductive ProfileResult where
  | dpValidationErr
  | keyValidationErr
  | ok
deriving DecidableEq

/-- `v || null` on an optional string: absent and empty both become null. -/
def orNullStr : Option Str → Option Str
  | none => none
  | some s => if s = [] then none else some s

/-- JavaScript truthiness of an optional string (`if (apiKey)`). -/
def strTruthy : Option Str → Bool
  | none => false
  | some s => decide (s ≠ [])

section ProfileRoute

variable (encB : List Nat → List Nat)

/-- PUT /api/profile (route lines 91-188): require `dietaryPreferences` to be
an array, shape-check a provided key, encrypt it, then upsert. The update
data always carries `healthGoal || null` and `fitnessLevel || null`, and
carries the credential fields only when a key was provided; the create data
does the same with `hasApiKey` defaulting to false. `iv` is the fresh random
IV the encryption call draws. -/
def PUT (iv : List Nat) (now : Nat) (db : Db) (uid : Nat)
    (body : ProfilePutBody) : ProfileResult × Db :=
  match body.dietaryPreferences with
  | .missing => (.dpValidationErr, db)
  | .notArray => (.dpValidationErr, db)
  | .arr xs =>
    if strTruthy body.apiKey && !validateOpenAIApiKey (body.apiKey.getD []) then
      (.keyValidationErr, db)
    else
      let truthy := strTruthy body.apiKey
      let enc := encryptApiKey encB iv ((body.apiKey.getD []).map Char.toNat)
      match findProfile db uid with
      | some p =>
        let p' := { p with
          healthGoal := orNullStr body.healthGoal,
          dietaryPreferences := xs,
          fitnessLevel := orNullStr body.fitnessLevel,
          updatedAt := now,
          openaiApiKeyHash := if truthy then some enc else p.openaiApiKeyHash,
          hasApiKey := if truthy then true else p.hasApiKey }
        (.ok, { db with profiles := db.profiles.map (fun q =>
          if q.userId == uid then p' else q) })
      | none =>
        let p' : ProfileRow :=
          { userId := uid,
            healthGoal := orNullStr body.healthGoal,
            dietaryPreferences := xs,
            fitnessLevel := orNullStr body.fitnessLevel,
            openaiApiKeyHash := if truthy then some enc else none,
            hasApiKey := if truthy then true else false,
            updatedAt := now }
        (.ok, { db with profiles := db.profiles ++ [p'] })

end ProfileRoute

/-! ## Client-side conversation list merge (useChat.ts fetchConversations) -/

/-- A conversation entry of the client's list state. -/
structure ClientConv where
  id : Str
  title : Str
  lastMessage : Str
  time : Str
deriving DecidableEq

/-- The fixed local-id lead-in of provisional conversations (`conv_`). -/
def provisionalTag : Str := "conv_".data

/-- `c.id.startsWith('conv_')`. -/
def isProvisionalId (id : Str) : Bool := List.isPrefixOf provisionalTag id

/-- The `setConversations` merge on list reload: keep previous entries that
are provisional and not yet on the server, ahead of the server list. -/
def mergeConversations (prev server : List ClientConv) : List ClientConv :=
  let serverIds := server.map (fun c => c.id)
  let localOnly := prev.filter (fun c =>
    !(serverIds.contains c.id) && isProvisionalId c.id)
  localOnly ++ server

/-! ## Theorems -/

/-! ### Turn pipeline lemmas -/

theorem resolveConversation_none (now : Nat) (db : Db) (uid : Nat) (m : Str) :
    resolveConversation now db uid m none =
      (freshConvId db,
       { db with
          conversations := db.conversations ++ [newConversationRow now db uid m],
          nextId := db.nextId + 1 }) := rfl

theorem resolveConversation_stale (now : Nat) (db : Db) (uid : Nat) (m : Str)
    (c : Str) (hfound : findConversation db uid c = none) :
    resolveConversation now db uid m (some c) =
      resolveConversation now db uid m none := by
  unfold resolveConversation
  by_cases hblank : c = [] ∨ jsTrim c = []
  · simp [hblank]
  · simp [hblank, hfound]

theorem POST_resolve_stale (decB : List Nat → List Nat)
    (sysPrompt : UserContext → Str) (now : Nat)
    (ai : List MsgParam → Except Unit Str) (db : Db) (uid : Nat) (m : Str)
    (c : Str) (hfound : findConversation db uid c = none) :
    POST decB sysPrompt now ai db uid m (some c) =
      POST decB sysPrompt now ai db uid m none := by
  have hres := resolveConversation_stale now db uid m c hfound
  unfold POST turnSuccessDb turnUserDb resolvedCid
  rw [hres]

theorem POST_cases (decB : List Nat → List Nat) (sysPrompt : UserContext → Str)
    (now : Nat) (ai : List MsgParam → Except Unit Str) (db : Db) (uid : Nat)
    (m : Str) (cid : Option Str) (hm : m ≠ []) :
    (∃ st, POST decB sysPrompt now ai db uid m cid =
        (st, turnUserDb now db uid m cid) ∧
      (st = ChatResult.credentialErr ∨ st = ChatResult.completionErr)) ∨
    (∃ c, c ≠ [] ∧
      POST decB sysPrompt now ai db uid m cid =
        (ChatResult.success (freshMsgId (turnUserDb now db uid m cid)) c now
           (resolvedCid now db uid m cid),
         turnSuccessDb now db uid m cid c)) := by
  unfold POST
  rw [if_neg hm]
  cases hcl : getUserOpenAIClient decB (turnUserDb now db uid m cid) uid with
  | none => exact Or.inl ⟨ChatResult.credentialErr, rfl, Or.inl rfl⟩
  | some key =>
    cases hai : generateAIResponse sysPrompt ai m
        (getUserContext (turnUserDb now db uid m cid) uid)
        (recentMessagesFor (turnUserDb now db uid m cid) uid
          (resolvedCid now db uid m cid)) with
    | none => exact Or.inl ⟨ChatResult.completionErr, rfl, Or.inr rfl⟩
    | some c =>
      by_cases hc : c = []
      · subst hc
        exact Or.inl ⟨ChatResult.completionErr, rfl, Or.inr rfl⟩
      · refine Or.inr ⟨c, hc, ?_⟩
        show (if c = [] then
            (ChatResult.completionErr, turnUserDb now db uid m cid)
          else
            (ChatResult.success (freshMsgId (turnUserDb now db uid m cid)) c now
               (resolvedCid now db uid m cid),
             turnSuccessDb now db uid m cid c)) = _
        rw [if_neg hc]

theorem turnUserMsg_mem_turnUserDb (now : Nat) (db : Db) (uid : Nat) (m : Str)
    (cid : Option Str) :
    turnUserMsg now db uid m cid ∈ (turnUserDb now db uid m cid).messages := by
  unfold turnUserDb turnUserMsg appendMessage
  simp

theorem turnUserMsg_mem_POST (decB : List Nat → List Nat)
    (sysPrompt : UserContext → Str) (now : Nat)
    (ai : List MsgParam → Except Unit Str) (db : Db) (uid : Nat) (m : Str)
    (cid : Option Str) (hm : m ≠ []) :
    turnUserMsg now db uid m cid ∈
      (POST decB sysPrompt now ai db uid m cid).2.messages := by
  rcases POST_cases decB sysPrompt now ai db uid m cid hm with
    ⟨st, heq, _⟩ | ⟨c, hc, heq⟩
  · rw [heq]
    exact turnUserMsg_mem_turnUserDb now db uid m cid
  · rw [heq]
    unfold turnSuccessDb updateConversationDenorm appendMessage
    simp only [List.mem_append]
    left
    exact turnUserMsg_mem_turnUserDb now db uid m cid

theorem updateConversationDenorm_mem (db : Db) (cid : Str) (c : Str)
    (now : Nat) (cv : Conversation) (h : cv ∈ db.conversations) :
    ∃ cv' ∈ (updateConversationDenorm db cid c now).conversations,
      cv'.id = cv.id ∧ cv'.userId = cv.userId ∧ cv'.title = cv.title ∧
      cv'.createdAt = cv.createdAt := by
  unfold updateConversationDenorm
  refine ⟨if cv.id == cid then
      { cv with lastMessage := some c, updatedAt := now } else cv,
    List.mem_map_of_mem _ h, ?_⟩
  by_cases hid : cv.id == cid
  · simp [hid]
  · simp [hid]

theorem conversations_mem_POST (decB : List Nat → List Nat)
    (sysPrompt : UserContext → Str) (now : Nat)
    (ai : List MsgParam → Except Unit Str) (db : Db) (uid : Nat) (m : Str)
    (cid : Option Str) (hm : m ≠ []) :
    ∀ cv ∈ (resolveConversation now db uid m cid).2.conversations,
      ∃ cv' ∈ (POST decB sysPrompt now ai db uid m cid).2.conversations,
        cv'.id = cv.id ∧ cv'.userId = cv.userId ∧ cv'.title = cv.title ∧
        cv'.createdAt = cv.createdAt := by
  intro cv hcv
  rcases POST_cases decB sysPrompt now ai db uid m cid hm with
    ⟨st, heq, _⟩ | ⟨c, hc, heq⟩
  · rw [heq]
    exact ⟨cv, hcv, rfl, rfl, rfl, rfl⟩
  · rw [heq]
    exact updateConversationDenorm_mem _ _ _ _ cv hcv

theorem resolveConversation_db (now : Nat) (db : Db) (uid : Nat) (m : Str)
    (cid : Option Str) :
    (resolveConversation now db uid m cid).2 = db ∨
    (resolveConversation now db uid m cid).2 =
      { db with
         conversations := db.conversations ++ [newConversationRow now db uid m],
         nextId := db.nextId + 1 } := by
  unfold resolveConversation
  dsimp only
  split
  · exact Or.inl rfl
  · exact Or.inr rfl

theorem turnUserDb_profiles (now : Nat) (db : Db) (uid : Nat) (m : Str)
    (cid : Option Str) :
    (turnUserDb now db uid m cid).profiles = db.profiles := by
  unfold turnUserDb appendMessage
  show (resolveConversation now db uid m cid).2.profiles = db.profiles
  rcases resolveConversation_db now db uid m cid with h | h <;> rw [h]

theorem getUserOpenAIClient_turnUserDb (decB : List Nat → List Nat)
    (now : Nat) (db : Db) (uid : Nat) (m : Str) (cid : Option Str) :
    getUserOpenAIClient decB (turnUserDb now db uid m cid) uid =
      getUserOpenAIClient decB db uid := by
  unfold getUserOpenAIClient findProfile
  rw [turnUserDb_profiles]

/-! ### String lemmas for the title derivation -/

theorem jsSplit_ne_nil (sep : Char) (s : Str) : jsSplit sep s ≠ [] := by
  cases s with
  | nil => simp [jsSplit]
  | cons c rest =>
    unfold jsSplit
    cases h : jsSplit sep rest with
    | nil => simp
    | cons f fs => by_cases hc : c = sep <;> simp [hc]

theorem joinSep_jsSplit (sep : Char) (s : Str) :
    joinSep sep (jsSplit sep s) = s := by
  induction s with
  | nil => rfl
  | cons c rest ih =>
    unfold jsSplit
    cases h : jsSplit sep rest with
    | nil => exact absurd h (jsSplit_ne_nil sep rest)
    | cons f fs =>
      rw [h] at ih
      by_cases hc : c = sep
      · subst hc
        dsimp only
        rw [if_pos rfl]
        show c :: joinSep c (f :: fs) = c :: rest
        rw [ih]
      · dsimp only
        rw [if_neg hc]
        cases fs with
        | nil =>
          show c :: f = c :: rest
          rw [show f = rest from ih]
        | cons g gs =>
          show c :: (f ++ sep :: joinSep sep (g :: gs)) = c :: rest
          rw [show f ++ sep :: joinSep sep (g :: gs) = rest from ih]

theorem joinSep_take_prefix (sep : Char) :
    ∀ (L : List Str) (n : Nat), joinSep sep (L.take n) <+: joinSep sep L := by
  intro L
  induction L with
  | nil => intro n; simp [joinSep]
  | cons f fs ih =>
    intro n
    cases n with
    | zero => exact ⟨joinSep sep (f :: fs), rfl⟩
    | succ k =>
      cases fs with
      | nil => simp
      | cons g gs =>
        cases k with
        | zero => exact ⟨sep :: joinSep sep (g :: gs), rfl⟩
        | succ j =>
          obtain ⟨t, ht⟩ := ih (j + 1)
          refine ⟨t, ?_⟩
          show (f ++ sep :: joinSep sep ((g :: gs).take (j + 1))) ++ t =
            f ++ sep :: joinSep sep (g :: gs)
          rw [List.append_assoc]
          simp only [List.cons_append]
          rw [ht]

theorem dropWhile_suffix_keep (p : Char → Bool) (suf : Str)
    (hns : ∀ c ∈ suf, p c = false) (hne : suf ≠ []) :
    ∀ (u : Str), suf <:+ u → suf <:+ u.dropWhile p := by
  intro u
  induction u with
  | nil => intro h; exact absurd (List.suffix_nil.mp h) hne
  | cons a as ih =>
    intro h
    rw [List.dropWhile_cons]
    by_cases hp : p a = true
    · rw [if_pos hp]
      apply ih
      rcases List.suffix_cons_iff.mp h with h1 | h2
      · exfalso
        have hfa : p a = false := hns a (by rw [h1]; exact List.mem_cons_self a as)
        rw [hfa] at hp
        exact absurd hp (by simp)
      · exact h2
    · rw [if_neg hp]
      exact h

theorem jsTrim_concat_nonspace (x : Str) (c : Char) (hc : jsSpace c = false) :
    jsTrim (x ++ [c]) = (x ++ [c]).dropWhile jsSpace := by
  unfold jsTrim
  have hsuf : [c] <:+ (x ++ [c]).dropWhile jsSpace :=
    dropWhile_suffix_keep jsSpace [c]
      (by intro d hd; simp at hd; rw [hd]; exact hc) (by simp)
      (x ++ [c]) ⟨x, rfl⟩
  obtain ⟨y, hy⟩ := hsuf
  rw [← hy]
  simp [List.reverse_append, List.dropWhile_cons, hc]

theorem jsTrim_length_le (s : Str) : (jsTrim s).length ≤ s.length := by
  unfold jsTrim
  have h1 : (s.dropWhile jsSpace).length ≤ s.length :=
    (List.dropWhile_suffix _).length_le
  have h2 : ((s.dropWhile jsSpace).reverse.dropWhile jsSpace).length ≤
      (s.dropWhile jsSpace).reverse.length :=
    (List.dropWhile_suffix _).length_le
  simp only [List.length_reverse] at *
  omega

theorem resolvedCid_mem (now : Nat) (db : Db) (uid : Nat) (m : Str)
    (cid : Option Str) :
    ∃ cv ∈ (resolveConversation now db uid m cid).2.conversations,
      cv.id = resolvedCid now db uid m cid := by
  unfold resolvedCid resolveConversation
  dsimp only
  split
  case h_1 c heq =>
    cases cid with
    | none => exact absurd heq (by simp)
    | some c0 =>
      dsimp only at heq
      by_cases hblank : c0 = [] ∨ jsTrim c0 = []
      · rw [if_pos hblank] at heq
        exact absurd heq (by simp)
      · rw [if_neg hblank] at heq
        cases hfind : findConversation db uid c0 with
        | none =>
          rw [hfind] at heq
          exact absurd heq (by simp)
        | some cv =>
          rw [hfind] at heq
          unfold findConversation at hfind
          have hc : c0 = c := by
            simpa using heq
          have hmem : cv ∈ db.conversations :=
            List.mem_of_find?_eq_some hfind
          have hpred := List.find?_some hfind
          simp only [Bool.and_eq_true, beq_iff_eq] at hpred
          exact ⟨cv, hmem, by rw [hpred.1, hc]⟩
  case h_2 heq =>
    exact ⟨newConversationRow now db uid m, by simp, rfl⟩

theorem jsTrim_append_dots_suffix (x : Str) :
    ['.', '.', '.'] <:+ jsTrim (x ++ ['.', '.', '.']) := by
  have hconc : x ++ ['.', '.', '.'] = (x ++ ['.', '.']) ++ ['.'] := by
    rw [List.append_assoc]
    rfl
  rw [hconc, jsTrim_concat_nonspace _ '.' (by decide)]
  apply dropWhile_suffix_keep jsSpace ['.', '.', '.'] (by decide) (by decide)
  rw [← hconc]
  exact ⟨_, rfl⟩

theorem jsTrim_append_dots_ne_nil (x : Str) :
    jsTrim (x ++ ['.', '.', '.']) ≠ [] := by
  intro h0
  have h := jsTrim_append_dots_suffix x
  rw [h0] at h
  obtain ⟨pre, hpre⟩ := h
  simp at hpre

theorem generateConversationTitle_trunc (m : Str)
    (h30 : 30 < (joinSep ' ' ((jsSplit ' ' (jsTrim m)).take 4)).length) :
    generateConversationTitle m =
      jsTrim ((joinSep ' ' ((jsSplit ' ' (jsTrim m)).take 4)).take 30 ++
        ['.', '.', '.']) := by
  unfold generateConversationTitle
  dsimp only
  rw [if_pos h30, if_neg (jsTrim_append_dots_ne_nil _)]

theorem generateConversationTitle_short (m : Str)
    (h30 : ¬30 < (joinSep ' ' ((jsSplit ' ' (jsTrim m)).take 4)).length) :
    generateConversationTitle m =
      if jsTrim (joinSep ' ' ((jsSplit ' ' (jsTrim m)).take 4)) = [] then
        "New Conversation".data
      else jsTrim (joinSep ' ' ((jsSplit ' ' (jsTrim m)).take 4)) := by
  unfold generateConversationTitle
  dsimp only
  rw [if_neg h30]

/-- C5: a turn that creates a new conversation derives the row from the
message: the created conversation carries `generateConversationTitle m` as
title and initial last message `m`; the title base is the join of the first
four space-separated words of the trimmed message (a prefix of the trimmed
message); the title is never empty, is at most 33 characters (the
30-character cap plus the three-character ellipsis marker), is the fixed
placeholder exactly when the derived text trims to empty, equals the trimmed
base when no truncation applies, and when the base exceeds 30 characters it
is the trimmed 30-character cut with the ellipsis marker appended, the
marker remaining a suffix of the final title. -/
theorem POST_new_conversation_spec (now : Nat) (db : Db) (uid : Nat) (m : Str) :
    (resolveConversation now db uid m none).2.conversations =
      db.conversations ++ [newConversationRow now db uid m] ∧
    (newConversationRow now db uid m).title = generateConversationTitle m ∧
    (newConversationRow now db uid m).lastMessage = some m ∧
    joinSep ' ' ((jsSplit ' ' (jsTrim m)).take 4) <+: jsTrim m ∧
    generateConversationTitle m ≠ [] ∧
    (generateConversationTitle m).length ≤ 33 ∧
    (jsTrim m = [] → generateConversationTitle m = "New Conversation".data) ∧
    ((joinSep ' ' ((jsSplit ' ' (jsTrim m)).take 4)).length ≤ 30 ∧
      jsTrim (joinSep ' ' ((jsSplit ' ' (jsTrim m)).take 4)) ≠ [] →
      generateConversationTitle m =
        jsTrim (joinSep ' ' ((jsSplit ' ' (jsTrim m)).take 4))) ∧
    ((joinSep ' ' ((jsSplit ' ' (jsTrim m)).take 4)).length ≤ 30 ∧
      jsTrim (joinSep ' ' ((jsSplit ' ' (jsTrim m)).take 4)) = [] →
      generateConversationTitle m = "New Conversation".data) ∧
    (30 < (joinSep ' ' ((jsSplit ' ' (jsTrim m)).take 4)).length →
      generateConversationTitle m =
        jsTrim ((joinSep ' ' ((jsSplit ' ' (jsTrim m)).take 4)).take 30 ++
          ['.', '.', '.']) ∧
      ['.', '.', '.'] <:+ generateConversationTitle m) := by
  refine ⟨?_, ?_, ?_, ?_, ?_, ?_, ?_, ?_, ?_, ?_⟩
  · rw [resolveConversation_none]
  · unfold newConversationRow
    rfl
  · unfold newConversationRow
    rfl
  · have h := joinSep_take_prefix ' ' (jsSplit ' ' (jsTrim m)) 4
    rw [joinSep_jsSplit] at h
    exact h
  · by_cases h30 : 30 < (joinSep ' ' ((jsSplit ' ' (jsTrim m)).take 4)).length
    · rw [generateConversationTitle_trunc m h30]
      exact jsTrim_append_dots_ne_nil _
    · rw [generateConversationTitle_short m h30]
      split
      next he => decide
      next he => exact he
  · by_cases h30 : 30 < (joinSep ' ' ((jsSplit ' ' (jsTrim m)).take 4)).length
    · rw [generateConversationTitle_trunc m h30]
      refine le_trans (jsTrim_length_le _) ?_
      have h3 : (['.', '.', '.'] : Str).length = 3 := rfl
      simp only [List.length_append, List.length_take, h3]
      omega
    · rw [generateConversationTitle_short m h30]
      split
      next he => decide
      next he =>
        refine le_trans (jsTrim_length_le _) ?_
        omega
  · intro h
    unfold generateConversationTitle
    rw [h]
    decide
  · rintro ⟨hlen, hne⟩
    rw [generateConversationTitle_short m (by omega)]
    rw [if_neg hne]
  · rintro ⟨hlen, he⟩
    rw [generateConversationTitle_short m (by omega)]
    rw [if_pos he]
  · intro h30
    rw [generateConversationTitle_trunc m h30]
    exact ⟨rfl, jsTrim_append_dots_suffix _⟩

/-- Witness for C5: the spec's own scenario message, which fits under the
30-character cap. -/
theorem POST_new_conversation_spec_witness :
    ((joinSep ' ' ((jsSplit ' '
        (jsTrim "What should I eat?".data)).take 4)).length ≤ 30 ∧
      jsTrim (joinSep ' ' ((jsSplit ' '
        (jsTrim "What should I eat?".data)).take 4)) ≠ []) ∧
    generateConversationTitle "What should I eat?".data =
      jsTrim (joinSep ' ' ((jsSplit ' '
        (jsTrim "What should I eat?".data)).take 4)) :=
  ⟨⟨by decide, by decide⟩,
    (POST_new_conversation_spec 0 ⟨[], [], [], [], 0⟩ 0
      "What should I eat?".data).2.2.2.2.2.2.2.1 ⟨by decide, by decide⟩⟩

theorem recent_after_append (dbx : Db) (now uid : Nat) (cid : Str)
    (m : Str) :
    ∃ pre : List MsgParam,
      recentMessagesFor (appendMessage now dbx uid cid roleUser m) uid cid =
        pre ++ [⟨roleUser, m⟩] ∧ pre.length ≤ 9 := by
  have key : ∀ (L : List ChatMessage) (msg : ChatMessage),
      ((L ++ [msg]).reverse.take 10).reverse =
        ((L.reverse.take 9).reverse) ++ [msg] := by
    intro L msg
    rw [List.reverse_append]
    rw [show ([msg]).reverse = [msg] from rfl]
    rw [List.singleton_append]
    rw [show (10 : Nat) = 9 + 1 from rfl]
    rw [List.take_succ_cons, List.reverse_cons]
  refine ⟨List.map (fun mm : ChatMessage =>
      (⟨mm.role, mm.content⟩ : MsgParam))
      (((List.filter (fun ms : ChatMessage =>
          ms.conversationId == cid && ms.userId == uid)
          dbx.messages).reverse.take 9).reverse), ?_, ?_⟩
  · unfold recentMessagesFor appendMessage
    dsimp only
    rw [List.filter_append]
    rw [show List.filter (fun msg : ChatMessage =>
        msg.conversationId == cid && msg.userId == uid)
        [mkMessage now dbx uid cid roleUser m] =
        [mkMessage now dbx uid cid roleUser m] by simp [mkMessage]]
    rw [key, List.map_append]
    rfl
  · simp only [List.length_map, List.length_reverse]
    exact List.length_take_le 9 _

/-- C6: the ordered message list a turn hands to the completion call is one
system message, then the bounded history queried after the user message was
persisted — so the history's newest (last) element is that very user message
and it holds at most 10 entries — then the same user message appended once
more as the final element: the new user message appears twice, in adjacent
final positions. -/
theorem turnSent_user_message_twice (sysPrompt : UserContext → Str)
    (now : Nat) (db : Db) (uid : Nat) (m : Str) (cid : Option Str) :
    ∃ (sysContent : Str) (pre : List MsgParam),
      turnSent sysPrompt now db uid m cid =
        ⟨"system".data, sysContent⟩ ::
          (pre ++ [⟨roleUser, m⟩] ++ [⟨roleUser, m⟩]) ∧
      recentMessagesFor (turnUserDb now db uid m cid) uid
        (resolvedCid now db uid m cid) = pre ++ [⟨roleUser, m⟩] ∧
      (recentMessagesFor (turnUserDb now db uid m cid) uid
        (resolvedCid now db uid m cid)).getLast? = some ⟨roleUser, m⟩ ∧
      (recentMessagesFor (turnUserDb now db uid m cid) uid
        (resolvedCid now db uid m cid)).length ≤ 10 := by
  obtain ⟨pre, hrec, hlen⟩ :=
    recent_after_append (resolveConversation now db uid m cid).2 now uid
      (resolvedCid now db uid m cid) m
  have hrec' : recentMessagesFor (turnUserDb now db uid m cid) uid
      (resolvedCid now db uid m cid) = pre ++ [⟨roleUser, m⟩] := hrec
  refine ⟨sysPrompt (getUserContext (turnUserDb now db uid m cid) uid), pre,
    ?_, hrec', ?_, ?_⟩
  · unfold turnSent sentMessages
    rw [hrec']
  · rw [hrec']
    rw [List.getLast?_concat]
  · rw [hrec']
    simp only [List.length_append]
    have h1 : ([(⟨roleUser, m⟩ : MsgParam)]).length = 1 := rfl
    omega

/-- C1 (corrected): after a fully successful turn the conversation's
denormalized fields do mirror the FINAL (assistant) append: its last message
equals the assistant content the turn returns, its `updatedAt` is stamped
with the turn's clock and is ≥ any prior value, and the assistant row is the
last message persisted. (The user-message insert of the same turn updates no
conversation fields — see the counterexample theorem.) -/
theorem POST_success_denormalized_update (decB : List Nat → List Nat)
    (sysPrompt : UserContext → Str) (now : Nat)
    (ai : List MsgParam → Except Unit Str) (db : Db) (uid : Nat) (m : Str)
    (cid : Option Str) (mid c : Str) (t : Nat) (rcid : Str)
    (hm : m ≠ [])
    (hpost : (POST decB sysPrompt now ai db uid m cid).1 =
      ChatResult.success mid c t rcid) :
    t = now ∧ rcid = resolvedCid now db uid m cid ∧
    (∃ cv ∈ (POST decB sysPrompt now ai db uid m cid).2.conversations,
      cv.id = rcid ∧ cv.lastMessage = some c ∧ cv.updatedAt = now ∧
      ∀ cv0 ∈ db.conversations, cv0.id = rcid → cv0.updatedAt ≤ now →
        cv0.updatedAt ≤ cv.updatedAt) ∧
    (POST decB sysPrompt now ai db uid m cid).2.messages.getLast? =
      some (mkMessage now (turnUserDb now db uid m cid) uid rcid
        roleAssistant c) := by
  rcases POST_cases decB sysPrompt now ai db uid m cid hm with
    ⟨st, heq, hor⟩ | ⟨cc, hcc, heq⟩
  · rw [heq] at hpost
    rcases hor with h | h <;> rw [h] at hpost <;> exact absurd hpost (by simp)
  · rw [heq] at hpost
    simp only [ChatResult.success.injEq] at hpost
    obtain ⟨hmid, hc, ht, hrcid⟩ := hpost
    refine ⟨ht.symm, hrcid.symm, ?_, ?_⟩
    · obtain ⟨cv0, hcv0, hcv0id⟩ := resolvedCid_mem now db uid m cid
      have hb : (cv0.id == resolvedCid now db uid m cid) = true :=
        beq_iff_eq.mpr hcv0id
      have hmem2 : cv0 ∈ (appendMessage now (turnUserDb now db uid m cid)
          uid (resolvedCid now db uid m cid) roleAssistant cc).conversations :=
        hcv0
      have hmm : ({ cv0 with lastMessage := some cc, updatedAt := now } :
          Conversation) ∈ (turnSuccessDb now db uid m cid cc).conversations := by
        unfold turnSuccessDb updateConversationDenorm
        refine List.mem_map.mpr ⟨cv0, hmem2, ?_⟩
        simp only [hb, if_true]
      refine ⟨{ cv0 with lastMessage := some cc, updatedAt := now },
        ?_, ?_, ?_, rfl, ?_⟩
      · rw [heq]
        exact hmm
      · show cv0.id = rcid
        rw [← hrcid]
        exact hcv0id
      · rw [← hc]
      · intro cv1 _ _ hle
        exact hle
    · rw [heq, ← hc, ← hrcid]
      show ((turnUserDb now db uid m cid).messages ++
          [mkMessage now (turnUserDb now db uid m cid) uid
            (resolvedCid now db uid m cid) roleAssistant cc]).getLast? = _
      rw [List.getLast?_concat]

/-- Witness for C1 (corrected): a concrete fully successful turn. -/
theorem POST_success_denormalized_update_witness :
    ("hi".data ≠ ([] : Str)) ∧
    (POST (fun b => b) (fun _ => []) 9 (fun _ => Except.ok "ok".data)
        (⟨[], [], [⟨0, none, [], none,
          some (encryptApiKey (fun b => b) (List.replicate 16 0) [7]),
          true, 0⟩], [], 0⟩ : Db) 0 "hi".data none).1 =
      ChatResult.success "mxx".data "ok".data 9 "id".data ∧
    (9 = 9 ∧ "id".data = resolvedCid 9
        (⟨[], [], [⟨0, none, [], none,
          some (encryptApiKey (fun b => b) (List.replicate 16 0) [7]),
          true, 0⟩], [], 0⟩ : Db) 0 "hi".data none ∧
    (∃ cv ∈ (POST (fun b => b) (fun _ => []) 9 (fun _ => Except.ok "ok".data)
        (⟨[], [], [⟨0, none, [], none,
          some (encryptApiKey (fun b => b) (List.replicate 16 0) [7]),
          true, 0⟩], [], 0⟩ : Db) 0 "hi".data none).2.conversations,
      cv.id = "id".data ∧ cv.lastMessage = some "ok".data ∧
      cv.updatedAt = 9 ∧
      ∀ cv0 ∈ (⟨[], [], [⟨0, none, [], none,
          some (encryptApiKey (fun b => b) (List.replicate 16 0) [7]),
          true, 0⟩], [], 0⟩ : Db).conversations,
        cv0.id = "id".data → cv0.updatedAt ≤ 9 →
          cv0.updatedAt ≤ cv.updatedAt) ∧
    (POST (fun b => b) (fun _ => []) 9 (fun _ => Except.ok "ok".data)
        (⟨[], [], [⟨0, none, [], none,
          some (encryptApiKey (fun b => b) (List.replicate 16 0) [7]),
          true, 0⟩], [], 0⟩ : Db) 0 "hi".data none).2.messages.getLast? =
      some (mkMessage 9 (turnUserDb 9
        (⟨[], [], [⟨0, none, [], none,
          some (encryptApiKey (fun b => b) (List.replicate 16 0) [7]),
          true, 0⟩], [], 0⟩ : Db) 0 "hi".data none) 0 "id".data
        roleAssistant "ok".data)) :=
  ⟨by decide, by decide,
    POST_success_denormalized_update (fun b => b) (fun _ => []) 9
      (fun _ => Except.ok "ok".data)
      (⟨[], [], [⟨0, none, [], none,
        some (encryptApiKey (fun b => b) (List.replicate 16 0) [7]),
        true, 0⟩], [], 0⟩ : Db) 0 "hi".data none
      "mxx".data "ok".data 9 "id".data (by decide) (by decide)⟩

/-- C1 counterexample: the claim "after any successful append the
conversation's `lastMessage` equals the appended message's content" fails on
the code at a concrete input: a turn against an existing conversation whose
credential is missing persists the user message (a successful append the
route never rolls back) while the conversation still carries its old
`lastMessage` — the user-message insert is not paired with any denormalized
conversation update. -/
theorem appendMessage_denorm_counterexample :
    ∃ msg ∈ (POST (fun b => b) (fun _ => []) 10 (fun _ => Except.error ())
        (⟨[⟨"c0".data, 0, "t".data, some "old".data, 0, 0⟩], [], [], [], 5⟩ :
          Db) 0 "new msg".data (some "c0".data)).2.messages,
      msg.role = roleUser ∧ msg.content = "new msg".data ∧
      msg.conversationId = "c0".data ∧
      ∃ cv ∈ (POST (fun b => b) (fun _ => []) 10 (fun _ => Except.error ())
          (⟨[⟨"c0".data, 0, "t".data, some "old".data, 0, 0⟩], [], [], [], 5⟩ :
            Db) 0 "new msg".data (some "c0".data)).2.conversations,
        cv.id = "c0".data ∧ cv.lastMessage ≠ some msg.content := by
  decide

theorem turnSuccessDb_conv (now : Nat) (db : Db) (uid : Nat) (m : Str)
    (cid : Option Str) (c : Str) :
    ∃ cv ∈ (turnSuccessDb now db uid m cid c).conversations,
      cv.id = resolvedCid now db uid m cid ∧ cv.lastMessage = some c ∧
      cv.updatedAt = now := by
  obtain ⟨cv0, hcv0, hcv0id⟩ := resolvedCid_mem now db uid m cid
  have hb : (cv0.id == resolvedCid now db uid m cid) = true :=
    beq_iff_eq.mpr hcv0id
  have hmem2 : cv0 ∈ (appendMessage now (turnUserDb now db uid m cid)
      uid (resolvedCid now db uid m cid) roleAssistant c).conversations := hcv0
  refine ⟨{ cv0 with lastMessage := some c, updatedAt := now }, ?_,
    hcv0id, rfl, rfl⟩
  unfold turnSuccessDb updateConversationDenorm
  refine List.mem_map.mpr ⟨cv0, hmem2, ?_⟩
  simp only [hb, if_true]

/-- C3: a turn whose completion call throws still succeeds: the response is
the keyword-sniffed fallback text (recipe-flavored when the lowercased
message mentions `recipe` or `meal`, workout-flavored when it mentions
`workout` or `exercise`, generic otherwise), served as a 200, persisted as
the final assistant message of the resolved conversation, and mirrored into
the conversation's denormalized fields — exactly the shape of a real
assistant turn, with no error surfaced. -/
theorem POST_completion_failure_fallback (decB : List Nat → List Nat)
    (sysPrompt : UserContext → Str) (now : Nat) (db : Db) (uid : Nat)
    (m : Str) (cid : Option Str) (e : Unit) (key : List Nat)
    (hm : m ≠ [])
    (hcred : getUserOpenAIClient decB db uid = some key) :
    POST decB sysPrompt now (fun _ => Except.error e) db uid m cid =
      (ChatResult.success (freshMsgId (turnUserDb now db uid m cid))
        (fallbackResponse m) now (resolvedCid now db uid m cid),
       turnSuccessDb now db uid m cid (fallbackResponse m)) ∧
    statusCode (POST decB sysPrompt now (fun _ => Except.error e)
      db uid m cid).1 = 200 ∧
    (POST decB sysPrompt now (fun _ => Except.error e)
        db uid m cid).2.messages.getLast? =
      some (mkMessage now (turnUserDb now db uid m cid) uid
        (resolvedCid now db uid m cid) roleAssistant (fallbackResponse m)) ∧
    (∃ cv ∈ (POST decB sysPrompt now (fun _ => Except.error e)
        db uid m cid).2.conversations,
      cv.id = resolvedCid now db uid m cid ∧
      cv.lastMessage = some (fallbackResponse m)) ∧
    ((jsIncludes "recipe".data (jsToLower m) ||
        jsIncludes "meal".data (jsToLower m)) = true →
      fallbackResponse m = fallbackRecipe) ∧
    ((jsIncludes "recipe".data (jsToLower m) ||
        jsIncludes "meal".data (jsToLower m)) = false →
      (jsIncludes "workout".data (jsToLower m) ||
        jsIncludes "exercise".data (jsToLower m)) = true →
      fallbackResponse m = fallbackWorkout) ∧
    ((jsIncludes "recipe".data (jsToLower m) ||
        jsIncludes "meal".data (jsToLower m)) = false →
      (jsIncludes "workout".data (jsToLower m) ||
        jsIncludes "exercise".data (jsToLower m)) = false →
      fallbackResponse m = fallbackGeneric) := by
  have hfb : fallbackResponse m ≠ [] := by
    unfold fallbackResponse
    dsimp only
    split
    next h => decide
    next h =>
      split
      next h2 => decide
      next h2 => decide
  have hcl : getUserOpenAIClient decB (turnUserDb now db uid m cid) uid =
      some key := by
    rw [getUserOpenAIClient_turnUserDb]
    exact hcred
  have hgen : generateAIResponse sysPrompt (fun _ => Except.error e) m
      (getUserContext (turnUserDb now db uid m cid) uid)
      (recentMessagesFor (turnUserDb now db uid m cid) uid
        (resolvedCid now db uid m cid)) = some (fallbackResponse m) := rfl
  have hpost : POST decB sysPrompt now (fun _ => Except.error e) db uid m cid =
      (ChatResult.success (freshMsgId (turnUserDb now db uid m cid))
        (fallbackResponse m) now (resolvedCid now db uid m cid),
       turnSuccessDb now db uid m cid (fallbackResponse m)) := by
    unfold POST
    rw [if_neg hm, hcl, hgen]
    show (if fallbackResponse m = [] then
        (ChatResult.completionErr, turnUserDb now db uid m cid)
      else
        (ChatResult.success (freshMsgId (turnUserDb now db uid m cid))
          (fallbackResponse m) now (resolvedCid now db uid m cid),
         turnSuccessDb now db uid m cid (fallbackResponse m))) = _
    rw [if_neg hfb]
  have hfr : fallbackResponse m =
      if jsIncludes "recipe".data (jsToLower m) ||
          jsIncludes "meal".data (jsToLower m) then fallbackRecipe
      else if jsIncludes "workout".data (jsToLower m) ||
          jsIncludes "exercise".data (jsToLower m) then fallbackWorkout
      else fallbackGeneric := rfl
  refine ⟨hpost, ?_, ?_, ?_, ?_, ?_, ?_⟩
  · rw [hpost]
    rfl
  · rw [hpost]
    show ((turnUserDb now db uid m cid).messages ++
        [mkMessage now (turnUserDb now db uid m cid) uid
          (resolvedCid now db uid m cid) roleAssistant
          (fallbackResponse m)]).getLast? = _
    rw [List.getLast?_concat]
  · rw [hpost]
    obtain ⟨cv, hmem, hid, hlm, _⟩ :=
      turnSuccessDb_conv now db uid m cid (fallbackResponse m)
    exact ⟨cv, hmem, hid, hlm⟩
  · intro h
    rw [hfr, if_pos h]
  · intro h1 h2
    rw [hfr, if_neg (by rw [h1]; decide), if_pos h2]
  · intro h1 h2
    rw [hfr, if_neg (by rw [h1]; decide), if_neg (by rw [h2]; decide)]

/-- Witness for C3: a concrete recipe-flavored turn against a stored,
decryptable credential and a throwing completion call. -/
theorem POST_completion_failure_fallback_witness :
    ("need a recipe".data ≠ ([] : Str)) ∧
    getUserOpenAIClient (fun b => b)
      (⟨[], [], [⟨0, none, [], none,
        some (encryptApiKey (fun b => b) (List.replicate 16 0) [7]),
        true, 0⟩], [], 0⟩ : Db) 0 = some [7] ∧
    POST (fun b => b) (fun _ => []) 4 (fun _ => Except.error ())
      (⟨[], [], [⟨0, none, [], none,
        some (encryptApiKey (fun b => b) (List.replicate 16 0) [7]),
        true, 0⟩], [], 0⟩ : Db) 0 "need a recipe".data none =
      (ChatResult.success
        (freshMsgId (turnUserDb 4
          (⟨[], [], [⟨0, none, [], none,
            some (encryptApiKey (fun b => b) (List.replicate 16 0) [7]),
            true, 0⟩], [], 0⟩ : Db) 0 "need a recipe".data none))
        (fallbackResponse "need a recipe".data) 4
        (resolvedCid 4
          (⟨[], [], [⟨0, none, [], none,
            some (encryptApiKey (fun b => b) (List.replicate 16 0) [7]),
            true, 0⟩], [], 0⟩ : Db) 0 "need a recipe".data none),
       turnSuccessDb 4
        (⟨[], [], [⟨0, none, [], none,
          some (encryptApiKey (fun b => b) (List.replicate 16 0) [7]),
          true, 0⟩], [], 0⟩ : Db) 0 "need a recipe".data none
        (fallbackResponse "need a recipe".data)) ∧
    fallbackResponse "need a recipe".data = fallbackRecipe :=
  ⟨by decide, by decide,
    (POST_completion_failure_fallback (fun b => b) (fun _ => []) 4
      (⟨[], [], [⟨0, none, [], none,
        some (encryptApiKey (fun b => b) (List.replicate 16 0) [7]),
        true, 0⟩], [], 0⟩ : Db) 0 "need a recipe".data none () [7]
      (by decide) (by decide)).1,
    (POST_completion_failure_fallback (fun b => b) (fun _ => []) 4
      (⟨[], [], [⟨0, none, [], none,
        some (encryptApiKey (fun b => b) (List.replicate 16 0) [7]),
        true, 0⟩], [], 0⟩ : Db) 0 "need a recipe".data none () [7]
      (by decide) (by decide)).2.2.2.2.1 (by decide)⟩

/-- C2: a turn whose `conversationId` is present but does not identify a
conversation owned by the calling user does not fail on that account: it runs
exactly as a turn with no conversation id — a fresh conversation (with an id
no prior conversation carries) is created for the caller, and the user's
message is persisted into that new conversation. -/
theorem POST_stale_conversation_creates_new
    (decB : List Nat → List Nat) (sysPrompt : UserContext → Str)
    (now : Nat) (ai : List MsgParam → Except Unit Str) (db : Db) (uid : Nat)
    (m : Str) (c : Str)
    (hm : m ≠ [])
    (hfound : findConversation db uid c = none)
    (hfresh : ∀ cv ∈ db.conversations, cv.id ≠ freshConvId db) :
    POST decB sysPrompt now ai db uid m (some c) =
      POST decB sysPrompt now ai db uid m none ∧
    ∃ cv ∈ (POST decB sysPrompt now ai db uid m (some c)).2.conversations,
      cv.id = freshConvId db ∧ cv.userId = uid ∧
      (∀ cv0 ∈ db.conversations, cv0.id ≠ cv.id) ∧
      ∃ msg ∈ (POST decB sysPrompt now ai db uid m (some c)).2.messages,
        msg.conversationId = cv.id ∧ msg.role = roleUser ∧
        msg.content = m := by
  have hpost := POST_resolve_stale decB sysPrompt now ai db uid m c hfound
  refine ⟨hpost, ?_⟩
  rw [hpost]
  have hmem : newConversationRow now db uid m ∈
      (resolveConversation now db uid m none).2.conversations := by
    rw [resolveConversation_none]
    simp
  obtain ⟨cv, hcv, hid, huid, _, _⟩ :=
    conversations_mem_POST decB sysPrompt now ai db uid m none hm
      (newConversationRow now db uid m) hmem
  refine ⟨cv, hcv, hid, huid, ?_, ?_⟩
  · intro cv0 h0
    rw [hid]
    exact hfresh cv0 h0
  · refine ⟨turnUserMsg now db uid m none,
      turnUserMsg_mem_POST decB sysPrompt now ai db uid m none hm, ?_, rfl, rfl⟩
    rw [hid]
    rfl

/-- Witness for C2: a concrete turn against a foreign conversation id. -/
theorem POST_stale_conversation_creates_new_witness :
    ("hi".data ≠ ([] : Str)) ∧
    findConversation
      ⟨[⟨"c0".data, 1, "t".data, none, 0, 0⟩], [], [], [], 0⟩ 0 "c0".data =
      none ∧
    (∀ cv ∈ (⟨[⟨"c0".data, 1, "t".data, none, 0, 0⟩], [], [], [], 0⟩ :
        Db).conversations,
      cv.id ≠ freshConvId ⟨[⟨"c0".data, 1, "t".data, none, 0, 0⟩], [], [], [], 0⟩) ∧
    (POST (fun b => b) (fun _ => []) 5 (fun _ => Except.error ())
        ⟨[⟨"c0".data, 1, "t".data, none, 0, 0⟩], [], [], [], 0⟩ 0 "hi".data
        (some "c0".data) =
      POST (fun b => b) (fun _ => []) 5 (fun _ => Except.error ())
        ⟨[⟨"c0".data, 1, "t".data, none, 0, 0⟩], [], [], [], 0⟩ 0 "hi".data
        none ∧
    ∃ cv ∈ (POST (fun b => b) (fun _ => []) 5 (fun _ => Except.error ())
        ⟨[⟨"c0".data, 1, "t".data, none, 0, 0⟩], [], [], [], 0⟩ 0 "hi".data
        (some "c0".data)).2.conversations,
      cv.id = freshConvId ⟨[⟨"c0".data, 1, "t".data, none, 0, 0⟩], [], [], [], 0⟩ ∧
      cv.userId = 0 ∧
      (∀ cv0 ∈ (⟨[⟨"c0".data, 1, "t".data, none, 0, 0⟩], [], [], [], 0⟩ :
          Db).conversations, cv0.id ≠ cv.id) ∧
      ∃ msg ∈ (POST (fun b => b) (fun _ => []) 5 (fun _ => Except.error ())
          ⟨[⟨"c0".data, 1, "t".data, none, 0, 0⟩], [], [], [], 0⟩ 0 "hi".data
          (some "c0".data)).2.messages,
        msg.conversationId = cv.id ∧ msg.role = roleUser ∧
        msg.content = "hi".data) :=
  ⟨by decide, by decide, by decide,
    POST_stale_conversation_creates_new (fun b => b) (fun _ => []) 5
      (fun _ => Except.error ())
      ⟨[⟨"c0".data, 1, "t".data, none, 0, 0⟩], [], [], [], 0⟩ 0 "hi".data
      "c0".data (by decide) (by decide) (by decide)⟩

/-- C4: whenever the caller's stored credential is absent (no profile row,
unset flag, null or empty ciphertext) or its ciphertext fails to decrypt,
the turn fails with the user-actionable credential error served as a 400 —
not a 5xx-class fault — and at that point the user's inbound message has
already been persisted to the resolved conversation and is not rolled back. -/
theorem POST_credential_missing_spec (decB : List Nat → List Nat)
    (sysPrompt : UserContext → Str) (now : Nat)
    (ai : List MsgParam → Except Unit Str) (db : Db) (uid : Nat) (m : Str)
    (cid : Option Str) (hm : m ≠ [])
    (hcred : findProfile db uid = none ∨
      ∃ p, findProfile db uid = some p ∧
        (p.hasApiKey = false ∨ p.openaiApiKeyHash = none ∨
         p.openaiApiKeyHash = some [] ∨
         ∃ h, p.openaiApiKeyHash = some h ∧
           decryptApiKey decB h = Except.error DecryptionError.failed)) :
    POST decB sysPrompt now ai db uid m cid =
      (ChatResult.credentialErr, turnUserDb now db uid m cid) ∧
    statusCode (POST decB sysPrompt now ai db uid m cid).1 = 400 ∧
    statusCode (POST decB sysPrompt now ai db uid m cid).1 < 500 ∧
    turnUserMsg now db uid m cid ∈
      (POST decB sysPrompt now ai db uid m cid).2.messages ∧
    (turnUserMsg now db uid m cid).role = roleUser ∧
    (turnUserMsg now db uid m cid).content = m ∧
    (turnUserMsg now db uid m cid).conversationId =
      resolvedCid now db uid m cid := by
  have hnone : getUserOpenAIClient decB (turnUserDb now db uid m cid) uid =
      none := by
    rw [getUserOpenAIClient_turnUserDb]
    unfold getUserOpenAIClient
    rcases hcred with h | ⟨p, hp, hcase⟩
    · rw [h]
    · rw [hp]
      rcases hcase with hflag | hnil | hemp | ⟨hh, hhash, hdec⟩
      · simp [hflag]
      · cases hk : p.hasApiKey <;> simp [hnil]
      · cases hk : p.hasApiKey <;> simp [hemp]
      · by_cases hhe : hh = [] <;>
          cases hk : p.hasApiKey <;> simp [hhash, hdec, hhe]
  have hpost : POST decB sysPrompt now ai db uid m cid =
      (ChatResult.credentialErr, turnUserDb now db uid m cid) := by
    unfold POST
    rw [if_neg hm, hnone]
  rw [hpost]
  exact ⟨rfl, rfl, (by decide : statusCode ChatResult.credentialErr < 500),
    turnUserMsg_mem_turnUserDb now db uid m cid, rfl, rfl, rfl⟩

/-- Witness for C4: a concrete turn by a user with no profile row. -/
theorem POST_credential_missing_spec_witness :
    ("hi".data ≠ ([] : Str)) ∧
    findProfile (⟨[], [], [], [], 0⟩ : Db) 0 = none ∧
    (POST (fun b => b) (fun _ => []) 7 (fun _ => Except.ok "ok".data)
        (⟨[], [], [], [], 0⟩ : Db) 0 "hi".data none =
      (ChatResult.credentialErr,
        turnUserDb 7 (⟨[], [], [], [], 0⟩ : Db) 0 "hi".data none) ∧
    statusCode (POST (fun b => b) (fun _ => []) 7 (fun _ => Except.ok "ok".data)
        (⟨[], [], [], [], 0⟩ : Db) 0 "hi".data none).1 = 400 ∧
    statusCode (POST (fun b => b) (fun _ => []) 7 (fun _ => Except.ok "ok".data)
        (⟨[], [], [], [], 0⟩ : Db) 0 "hi".data none).1 < 500 ∧
    turnUserMsg 7 (⟨[], [], [], [], 0⟩ : Db) 0 "hi".data none ∈
      (POST (fun b => b) (fun _ => []) 7 (fun _ => Except.ok "ok".data)
        (⟨[], [], [], [], 0⟩ : Db) 0 "hi".data none).2.messages ∧
    (turnUserMsg 7 (⟨[], [], [], [], 0⟩ : Db) 0 "hi".data none).role =
      roleUser ∧
    (turnUserMsg 7 (⟨[], [], [], [], 0⟩ : Db) 0 "hi".data none).content =
      "hi".data ∧
    (turnUserMsg 7 (⟨[], [], [], [], 0⟩ : Db) 0 "hi".data none).conversationId =
      resolvedCid 7 (⟨[], [], [], [], 0⟩ : Db) 0 "hi".data none) :=
  ⟨by decide, by decide,
    POST_credential_missing_spec (fun b => b) (fun _ => []) 7
      (fun _ => Except.ok "ok".data) (⟨[], [], [], [], 0⟩ : Db) 0 "hi".data
      none (by decide) (Or.inl (by decide))⟩

theorem find?_map_update (uid : Nat) (p' : ProfileRow)
    (hp' : (p'.userId == uid) = true) :
    ∀ (l : List ProfileRow) (p : ProfileRow),
      l.find? (fun q => q.userId == uid) = some p →
      (l.map (fun q => if q.userId == uid then p' else q)).find?
        (fun q => q.userId == uid) = some p' := by
  intro l
  induction l with
  | nil => intro p h; simp at h
  | cons q qs ih =>
    intro p h
    by_cases hq : (q.userId == uid) = true
    · rw [List.map_cons, if_pos hq]
      exact @List.find?_cons_of_pos ProfileRow (fun r => r.userId == uid) p'
        _ hp'
    · rw [List.map_cons, if_neg hq]
      rw [@List.find?_cons_of_neg ProfileRow (fun r => r.userId == uid) q
        qs hq] at h
      rw [@List.find?_cons_of_neg ProfileRow (fun r => r.userId == uid) q
        (qs.map (fun r => if r.userId == uid then p' else r)) hq]
      exact ih p h

theorem find?_append_create (uid : Nat) (p' : ProfileRow)
    (hp' : (p'.userId == uid) = true) :
    ∀ l : List ProfileRow, l.find? (fun q => q.userId == uid) = none →
      (l ++ [p']).find? (fun q => q.userId == uid) = some p' := by
  intro l
  induction l with
  | nil =>
    intro _
    rw [List.nil_append]
    exact @List.find?_cons_of_pos ProfileRow (fun r => r.userId == uid) p'
      [] hp'
  | cons q qs ih =>
    intro h
    by_cases hq : (q.userId == uid) = true
    · rw [@List.find?_cons_of_pos ProfileRow (fun r => r.userId == uid) q
        qs hq] at h
      exact absurd h (by simp)
    · rw [@List.find?_cons_of_neg ProfileRow (fun r => r.userId == uid) q
        qs hq] at h
      rw [List.cons_append]
      rw [@List.find?_cons_of_neg ProfileRow (fun r => r.userId == uid) q
        (qs ++ [p']) hq]
      exact ih h

/-- C9 counterexample: the claim "every field omitted from the call leaves
the corresponding stored value unchanged" fails on the code at a concrete
input: a profile update that omits `healthGoal` (and supplies only an empty
preferences array) overwrites the stored health goal with null, because the
update data always carries `healthGoal || null`. -/
theorem PUT_omitted_field_counterexample :
    (∃ q ∈ (⟨[], [], [⟨0, some "keep fit".data, ["vegan".data],
        some "pro".data, none, false, 0⟩], [], 0⟩ : Db).profiles,
      q.userId = 0 ∧ q.healthGoal = some "keep fit".data) ∧
    ∃ p ∈ (PUT (fun b => b) [] 5
        (⟨[], [], [⟨0, some "keep fit".data, ["vegan".data],
          some "pro".data, none, false, 0⟩], [], 0⟩ : Db)
        0 ⟨none, DPField.arr [], none, none⟩).2.profiles,
      p.userId = 0 ∧ p.healthGoal = none := by
  decide

/-- C9 (corrected): omitting `dietaryPreferences` is a validation failure
with nothing persisted; with an array supplied and `apiKey` omitted (or
empty), an existing profile keeps its stored credential fields unchanged —
but `healthGoal` and `fitnessLevel` are overwritten with `v || null` of the
body, i.e. null when omitted, not preserved; an absent profile is created
with nulls for unsupplied fields and an absent credential. -/
theorem PUT_omitted_fields_spec (encB : List Nat → List Nat)
    (iv : List Nat) (now : Nat) (db : Db) (uid : Nat)
    (body : ProfilePutBody) :
    (body.dietaryPreferences = DPField.missing ∨
      body.dietaryPreferences = DPField.notArray →
      PUT encB iv now db uid body = (ProfileResult.dpValidationErr, db)) ∧
    (∀ xs p, body.dietaryPreferences = DPField.arr xs →
      strTruthy body.apiKey = false →
      findProfile db uid = some p →
      (p.userId == uid) = true →
      (PUT encB iv now db uid body).1 = ProfileResult.ok ∧
      findProfile (PUT encB iv now db uid body).2 uid = some
        { p with
          healthGoal := orNullStr body.healthGoal,
          dietaryPreferences := xs,
          fitnessLevel := orNullStr body.fitnessLevel,
          updatedAt := now }) ∧
    (∀ xs, body.dietaryPreferences = DPField.arr xs →
      strTruthy body.apiKey = false →
      findProfile db uid = none →
      (PUT encB iv now db uid body).1 = ProfileResult.ok ∧
      findProfile (PUT encB iv now db uid body).2 uid = some
        { userId := uid,
          healthGoal := orNullStr body.healthGoal,
          dietaryPreferences := xs,
          fitnessLevel := orNullStr body.fitnessLevel,
          openaiApiKeyHash := none,
          hasApiKey := false,
          updatedAt := now }) := by
  refine ⟨?_, ?_, ?_⟩
  · intro h
    unfold PUT
    rcases h with h | h <;> rw [h]
  · intro xs p hdp htr hp hpu
    have hpost : PUT encB iv now db uid body = (ProfileResult.ok,
        { db with profiles := db.profiles.map (fun q =>
          if q.userId == uid then
            { p with
              healthGoal := orNullStr body.healthGoal,
              dietaryPreferences := xs,
              fitnessLevel := orNullStr body.fitnessLevel,
              updatedAt := now }
          else q) }) := by
      unfold PUT
      rw [hdp]
      dsimp only
      rw [show (strTruthy body.apiKey &&
        !validateOpenAIApiKey (body.apiKey.getD [])) = false by
          rw [htr]; rfl]
      rw [if_neg (by simp : ¬(false = true))]
      rw [hp, htr]
      rfl
    rw [hpost]
    refine ⟨rfl, ?_⟩
    unfold findProfile at hp ⊢
    exact find?_map_update uid
      { p with
        healthGoal := orNullStr body.healthGoal,
        dietaryPreferences := xs,
        fitnessLevel := orNullStr body.fitnessLevel,
        updatedAt := now }
      hpu db.profiles p hp
  · intro xs hdp htr hp
    have hpost : PUT encB iv now db uid body = (ProfileResult.ok,
        { db with profiles := db.profiles ++
          [{ userId := uid,
             healthGoal := orNullStr body.healthGoal,
             dietaryPreferences := xs,
             fitnessLevel := orNullStr body.fitnessLevel,
             openaiApiKeyHash := none,
             hasApiKey := false,
             updatedAt := now }] }) := by
      unfold PUT
      rw [hdp]
      dsimp only
      rw [show (strTruthy body.apiKey &&
        !validateOpenAIApiKey (body.apiKey.getD [])) = false by
          rw [htr]; rfl]
      rw [if_neg (by simp : ¬(false = true))]
      rw [hp, htr]
      rfl
    rw [hpost]
    refine ⟨rfl, ?_⟩
    unfold findProfile at hp ⊢
    exact find?_append_create uid _ (by simp) db.profiles hp

/-- Witness for C9 (corrected): a concrete update omitting everything but an
empty preferences array against an existing profile. -/
theorem PUT_omitted_fields_spec_witness :
    ((⟨none, DPField.arr [], none, none⟩ : ProfilePutBody).dietaryPreferences =
      DPField.arr [] ∧
    strTruthy (⟨none, DPField.arr [], none, none⟩ :
      ProfilePutBody).apiKey = false ∧
    findProfile (⟨[], [], [⟨0, some "keep fit".data, ["vegan".data],
      some "pro".data, some "h".data, true, 0⟩], [], 0⟩ : Db) 0 =
      some ⟨0, some "keep fit".data, ["vegan".data],
        some "pro".data, some "h".data, true, 0⟩) ∧
    (PUT (fun b => b) [] 5
      (⟨[], [], [⟨0, some "keep fit".data, ["vegan".data],
        some "pro".data, some "h".data, true, 0⟩], [], 0⟩ : Db) 0
      ⟨none, DPField.arr [], none, none⟩).1 = ProfileResult.ok ∧
    findProfile (PUT (fun b => b) [] 5
      (⟨[], [], [⟨0, some "keep fit".data, ["vegan".data],
        some "pro".data, some "h".data, true, 0⟩], [], 0⟩ : Db) 0
      ⟨none, DPField.arr [], none, none⟩).2 0 = some
        ⟨0, none, [], none, some "h".data, true, 5⟩ :=
  ⟨⟨rfl, rfl, by decide⟩,
    (PUT_omitted_fields_spec (fun b => b) [] 5
      (⟨[], [], [⟨0, some "keep fit".data, ["vegan".data],
        some "pro".data, some "h".data, true, 0⟩], [], 0⟩ : Db) 0
      ⟨none, DPField.arr [], none, none⟩).2.1 []
      ⟨0, some "keep fit".data, ["vegan".data],
        some "pro".data, some "h".data, true, 0⟩
      rfl rfl (by decide) (by decide)⟩

/-- C10: on every client list reload, each locally-created provisional
conversation (fixed `conv_` local-id lead-in) not yet on the server is
preserved and placed ahead of the server-returned conversations — the merged
list is such a preserved block followed by the server list — while every
merged entry whose id appears on the server is the server's version. -/
theorem mergeConversations_spec (prev server : List ClientConv) :
    (∀ c ∈ prev, isProvisionalId c.id = true →
      c.id ∉ server.map (fun s => s.id) →
      c ∈ mergeConversations prev server) ∧
    (∃ front, mergeConversations prev server = front ++ server ∧
      ∀ c ∈ front, c ∈ prev ∧ isProvisionalId c.id = true ∧
        c.id ∉ server.map (fun s => s.id)) ∧
    (∀ c ∈ mergeConversations prev server,
      c.id ∈ server.map (fun s => s.id) → c ∈ server) := by
  have hcont : ∀ (ids : List Str) (x : Str), ids.contains x = true ↔ x ∈ ids := by
    intro ids x
    exact List.elem_iff
  refine ⟨?_, ?_, ?_⟩
  · intro c hc hprov hnot
    unfold mergeConversations
    refine List.mem_append.mpr (Or.inl ?_)
    refine List.mem_filter.mpr ⟨hc, ?_⟩
    simp only [Bool.and_eq_true, Bool.not_eq_true']
    refine ⟨?_, hprov⟩
    cases h : (server.map (fun s => s.id)).contains c.id with
    | false => rfl
    | true => exact absurd ((hcont _ _).mp h) hnot
  · refine ⟨prev.filter (fun c : ClientConv =>
      !((server.map (fun s : ClientConv => s.id)).contains c.id) &&
        isProvisionalId c.id), ?_, ?_⟩
    · rfl
    intro c hc
    have := List.mem_filter.mp hc
    rcases this with ⟨hmem, hcond⟩
    simp only [Bool.and_eq_true, Bool.not_eq_true'] at hcond
    refine ⟨hmem, hcond.2, ?_⟩
    intro habs
    have := (hcont _ _).mpr habs
    rw [this] at hcond
    exact absurd hcond.1 (by simp)
  · intro c hc hid
    unfold mergeConversations at hc
    rcases List.mem_append.mp hc with hl | hr
    · exfalso
      rcases List.mem_filter.mp hl with ⟨_, hcond⟩
      simp only [Bool.and_eq_true, Bool.not_eq_true'] at hcond
      have := (hcont _ _).mpr hid
      rw [this] at hcond
      exact absurd hcond.1 (by simp)
    · exact hr

/-- Witness for C10 at a concrete reload: the unconfirmed provisional entry
`conv_1` survives the merge. -/
theorem mergeConversations_spec_witness :
    (⟨"conv_1".data, "t".data, "l".data, "n".data⟩ : ClientConv) ∈
      [(⟨"conv_1".data, "t".data, "l".data, "n".data⟩ : ClientConv),
       ⟨"sv1".data, "t".data, "l".data, "n".data⟩] ∧
    isProvisionalId ("conv_1".data) = true ∧
    ("conv_1".data) ∉
      ([(⟨"sv1".data, "t2".data, "l2".data, "n2".data⟩ : ClientConv)].map
        (fun s => s.id)) ∧
    (⟨"conv_1".data, "t".data, "l".data, "n".data⟩ : ClientConv) ∈
      mergeConversations
        [⟨"conv_1".data, "t".data, "l".data, "n".data⟩,
         ⟨"sv1".data, "t".data, "l".data, "n".data⟩]
        [⟨"sv1".data, "t2".data, "l2".data, "n2".data⟩] :=
  ⟨by decide, by decide, by decide,
    (mergeConversations_spec
      [⟨"conv_1".data, "t".data, "l".data, "n".data⟩,
       ⟨"sv1".data, "t".data, "l".data, "n".data⟩]
      [⟨"sv1".data, "t2".data, "l2".data, "n2".data⟩]).1
      ⟨"conv_1".data, "t".data, "l".data, "n".data⟩
      (by decide) (by decide) (by decide)⟩

/-! hex lemmas -/

theorem hexCharVal_hexDigitChar : ∀ d < 16, hexCharVal (hexDigitChar d) = some d := by
  decide

theorem hexDigitChar_ne_colon : ∀ d < 16, hexDigitChar d ≠ ':' := by
  decide

theorem bufFromHex_hexEncode : ∀ (bs : List Nat), (∀ b ∈ bs, b < 256) →
    bufFromHex (hexEncode bs) = bs := by
  intro bs
  induction bs with
  | nil => intro _; rfl
  | cons b rest ih =>
    intro h
    have hb : b < 256 := h b (List.mem_cons_self b rest)
    have h1 : b / 16 < 16 := by omega
    have h2 : b % 16 < 16 := by omega
    show bufFromHex (hexDigitChar (b / 16) :: hexDigitChar (b % 16) ::
      hexEncode rest) = b :: rest
    unfold bufFromHex
    rw [hexCharVal_hexDigitChar _ h1, hexCharVal_hexDigitChar _ h2,
      ih (fun y hy => h y (List.mem_cons_of_mem b hy))]
    show (16 * (b / 16) + b % 16) :: rest = b :: rest
    have : 16 * (b / 16) + b % 16 = b := by omega
    rw [this]

theorem hexEncode_length : ∀ (bs : List Nat),
    (hexEncode bs).length = 2 * bs.length := by
  intro bs
  induction bs with
  | nil => rfl
  | cons b rest ih =>
    show (hexEncode rest).length + 1 + 1 = 2 * (rest.length + 1)
    omega

theorem colon_not_mem_hexEncode : ∀ (bs : List Nat), (∀ b ∈ bs, b < 256) →
    ':' ∉ hexEncode bs := by
  intro bs
  induction bs with
  | nil => intro _ h; simp [hexEncode] at h
  | cons b rest ih =>
    intro h hmem
    have hb : b < 256 := h b (List.mem_cons_self b rest)
    rcases List.mem_cons.mp hmem with heq | hmem2
    · exact hexDigitChar_ne_colon (b / 16) (by omega) heq.symm
    rcases List.mem_cons.mp hmem2 with heq | hmem3
    · exact hexDigitChar_ne_colon (b % 16) (by omega) heq.symm
    exact ih (fun y hy => h y (List.mem_cons_of_mem b hy)) hmem3

/-! jsSplit structure lemmas -/

theorem jsSplit_no_sep (sep : Char) : ∀ (s : Str), sep ∉ s →
    jsSplit sep s = [s] := by
  intro s
  induction s with
  | nil => intro _; rfl
  | cons c rest ih =>
    intro h
    have hc : c ≠ sep := fun hc => h (hc ▸ List.mem_cons_self c rest)
    have hrest : sep ∉ rest := fun hr => h (List.mem_cons_of_mem c hr)
    simp only [jsSplit]
    rw [ih hrest]
    dsimp only
    rw [if_neg hc]

theorem jsSplit_append_sep (sep : Char) : ∀ (a b : Str), sep ∉ a →
    jsSplit sep (a ++ sep :: b) = a :: jsSplit sep b := by
  intro a
  induction a with
  | nil =>
    intro b _
    rw [List.nil_append]
    cases h : jsSplit sep b with
    | nil => exact absurd h (jsSplit_ne_nil sep b)
    | cons f fs =>
      simp only [jsSplit]
      rw [h]
      simp
  | cons c a0 ih =>
    intro b h
    have hc : c ≠ sep := fun hc => h (hc ▸ List.mem_cons_self c a0)
    have ha0 : sep ∉ a0 := fun hr => h (List.mem_cons_of_mem c hr)
    rw [List.cons_append]
    simp only [jsSplit]
    rw [ih b ha0]
    dsimp only
    rw [if_neg hc]

theorem jsSplit_two (sep : Char) (a b : Str) (ha : sep ∉ a) (hb : sep ∉ b) :
    jsSplit sep (a ++ sep :: b) = [a, b] := by
  rw [jsSplit_append_sep sep a b ha, jsSplit_no_sep sep b hb]

theorem jsSplit_inv (sep : Char) : ∀ (s f : Str) (fs : List Str),
    jsSplit sep s = f :: fs →
    sep ∉ f ∧ ((fs = [] ∧ s = f) ∨
      ∃ rest, s = f ++ sep :: rest ∧ jsSplit sep rest = fs) := by
  intro s
  induction s with
  | nil =>
    intro f fs h
    simp only [jsSplit] at h
    obtain ⟨h1, h2⟩ := List.cons.injEq .. |>.mp h.symm
    constructor
    · rw [h1]; simp
    · exact Or.inl ⟨h2, h1.symm⟩
  | cons c cs ih =>
    intro f fs h
    simp only [jsSplit] at h
    cases hsplit : jsSplit sep cs with
    | nil => exact absurd hsplit (jsSplit_ne_nil sep cs)
    | cons f0 fs0 =>
      rw [hsplit] at h
      dsimp only at h
      by_cases hc : c = sep
      · rw [if_pos hc] at h
        obtain ⟨h1, h2⟩ := List.cons.injEq .. |>.mp h
        refine ⟨by rw [← h1]; simp, Or.inr ⟨cs, ?_, ?_⟩⟩
        · rw [← h1, hc, List.nil_append]
        · rw [hsplit, h2]
      · rw [if_neg hc] at h
        obtain ⟨h1, h2⟩ := List.cons.injEq .. |>.mp h
        obtain ⟨hf0, hcase⟩ := ih f0 fs0 hsplit
        constructor
        · rw [← h1]
          intro hmem
          rcases List.mem_cons.mp hmem with heq | hmem2
          · exact hc heq.symm
          · exact hf0 hmem2
        · rcases hcase with ⟨hfs0, hcs⟩ | ⟨rest, hcs, hrest⟩
          · refine Or.inl ⟨by rw [← h2, hfs0], ?_⟩
            rw [← h1, hcs]
          · refine Or.inr ⟨rest, ?_, ?_⟩
            · rw [← h1, List.cons_append, hcs]
            · rw [hrest, h2]

theorem jsSplit_inv_two (sep : Char) (s a b : Str)
    (h : jsSplit sep s = [a, b]) :
    s = a ++ sep :: b ∧ sep ∉ a ∧ sep ∉ b := by
  obtain ⟨hna, hcase⟩ := jsSplit_inv sep s a [b] h
  rcases hcase with ⟨habs, _⟩ | ⟨rest, hs, hrest⟩
  · exact absurd habs (by simp)
  · obtain ⟨hnb, hcase2⟩ := jsSplit_inv sep rest b [] hrest
    rcases hcase2 with ⟨_, hrb⟩ | ⟨rest2, _, habs⟩
    · exact ⟨by rw [hs, hrb], hna, hnb⟩
    · exact absurd habs (jsSplit_ne_nil sep rest2)

/-! chunking lemmas -/

theorem chunksF_nil : ∀ n, chunksF n [] = [] := by
  intro n
  cases n with
  | zero => rfl
  | succ k => simp [chunksF]

theorem chunksF_congr : ∀ (n : Nat) (m : Nat) (l : List Nat),
    l.length ≤ n → l.length ≤ m → chunksF n l = chunksF m l := by
  intro n
  induction n with
  | zero =>
    intro m l hn _
    have : l = [] := List.eq_nil_of_length_eq_zero (by omega)
    rw [this, chunksF_nil, chunksF_nil]
  | succ k ih =>
    intro m l hn hm
    by_cases hl : l = []
    · rw [hl, chunksF_nil, chunksF_nil]
    · cases m with
      | zero =>
        have : l = [] := List.eq_nil_of_length_eq_zero (by omega)
        exact absurd this hl
      | succ j =>
        simp only [chunksF, if_neg hl]
        have hlen : 1 ≤ l.length := by
          cases l with
          | nil => exact absurd rfl hl
          | cons a as => simp
        have hdrop : (l.drop 16).length ≤ k := by
          simp only [List.length_drop]
          omega
        have hdrop2 : (l.drop 16).length ≤ j := by
          simp only [List.length_drop]
          omega
        rw [ih j (l.drop 16) hdrop hdrop2]

theorem chunks16_block (c : List Nat) (rest : List Nat)
    (hc : c.length = 16) :
    chunks16 (c ++ rest) = c :: chunks16 rest := by
  unfold chunks16
  have hne : c ++ rest ≠ [] := by
    intro h
    have := congrArg List.length h
    simp [hc] at this
  have hlen : (c ++ rest).length = rest.length + 16 := by
    simp [hc]
    omega
  have htake : (c ++ rest).take 16 = c := by
    rw [← hc]
    exact List.take_left c rest
  have hdrop : (c ++ rest).drop 16 = rest := by
    rw [← hc]
    exact List.drop_left c rest
  rw [hlen]
  rw [show chunksF (rest.length + 16) (c ++ rest) =
    if c ++ rest = [] then [] else
      (c ++ rest).take 16 :: chunksF (rest.length + 15) ((c ++ rest).drop 16)
    from rfl]
  rw [if_neg hne, htake, hdrop]
  rw [chunksF_congr (rest.length + 15) rest.length rest (by omega) (by omega)]

theorem chunksF_flatten : ∀ (n : Nat) (l : List Nat), l.length ≤ n →
    (chunksF n l).flatten = l := by
  intro n
  induction n with
  | zero =>
    intro l h
    have : l = [] := List.eq_nil_of_length_eq_zero (by omega)
    rw [this, chunksF_nil]
    rfl
  | succ k ih =>
    intro l h
    by_cases hl : l = []
    · rw [hl, chunksF_nil]
      rfl
    · simp only [chunksF, if_neg hl]
      rw [List.flatten_cons]
      have hlen : 1 ≤ l.length := by
        cases l with
        | nil => exact absurd rfl hl
        | cons a as => simp
      rw [ih (l.drop 16) (by simp only [List.length_drop]; omega)]
      exact List.take_append_drop 16 l

theorem chunks16_flatten (l : List Nat) : (chunks16 l).flatten = l :=
  chunksF_flatten l.length l (le_refl _)

theorem chunks16_blocks_len : ∀ (n : Nat) (l : List Nat), l.length ≤ n →
    l.length % 16 = 0 → ∀ c ∈ chunksF n l, c.length = 16 := by
  intro n
  induction n with
  | zero =>
    intro l hn _ c hc
    have : l = [] := List.eq_nil_of_length_eq_zero (by omega)
    rw [this, chunksF_nil] at hc
    simp at hc
  | succ k ih =>
    intro l hn hmod c hc
    by_cases hl : l = []
    · rw [hl, chunksF_nil] at hc
      simp at hc
    · simp only [chunksF, if_neg hl] at hc
      have hlen : 1 ≤ l.length := by
        cases l with
        | nil => exact absurd rfl hl
        | cons a as => simp
      have h16 : 16 ≤ l.length := by omega
      rcases List.mem_cons.mp hc with heq | hmem
      · rw [heq]
        simp only [List.length_take]
        omega
      · exact ih (l.drop 16) (by simp only [List.length_drop]; omega)
          (by simp only [List.length_drop]; omega) c hmem

theorem chunks16_of_blocks : ∀ (L : List (List Nat)),
    (∀ c ∈ L, c.length = 16) → chunks16 L.flatten = L := by
  intro L
  induction L with
  | nil => intro _; rfl
  | cons c rest ih =>
    intro h
    rw [List.flatten_cons]
    rw [chunks16_block c rest.flatten (h c (List.mem_cons_self c rest))]
    rw [ih (fun d hd => h d (List.mem_cons_of_mem c hd))]

/-! xor-block and CBC lemmas -/

theorem xorBlock_cancel : ∀ (b prev : List Nat), b.length = prev.length →
    xorBlock (xorBlock b prev) prev = b := by
  intro b
  induction b with
  | nil => intro prev _; rfl
  | cons x xs ih =>
    intro prev hlen
    cases prev with
    | nil => simp at hlen
    | cons p ps =>
      show (x ^^^ p ^^^ p) :: xorBlock (xorBlock xs ps) ps = x :: xs
      rw [Nat.xor_cancel_right, ih ps (by simpa using hlen)]

theorem xorBlock_length : ∀ (a b : List Nat), a.length = b.length →
    (xorBlock a b).length = a.length := by
  intro a b h
  unfold xorBlock
  rw [List.length_zipWith]
  omega

theorem xorBlock_bytes : ∀ (a b : List Nat), (∀ y ∈ a, y < 256) →
    (∀ y ∈ b, y < 256) → ∀ y ∈ xorBlock a b, y < 256 := by
  intro a
  induction a with
  | nil => intro b _ _ y hy; simp [xorBlock] at hy
  | cons x xs ih =>
    intro b ha hb y hy
    cases b with
    | nil => simp [xorBlock] at hy
    | cons p ps =>
      rcases List.mem_cons.mp hy with heq | hmem
      · rw [heq]
        have h1 : x < 2 ^ 8 := by
          have := ha x (List.mem_cons_self x xs)
          omega
        have h2 : p < 2 ^ 8 := by
          have := hb p (List.mem_cons_self p ps)
          omega
        have h3 : x ^^^ p < 2 ^ 8 := Nat.xor_lt_two_pow h1 h2
        show x ^^^ p < 256
        omega
      · exact ih ps (fun z hz => ha z (List.mem_cons_of_mem x hz))
          (fun z hz => hb z (List.mem_cons_of_mem p hz)) y hmem

/-! CBC lemmas -/

theorem cbcEncrypt_valid (encB : List Nat → List Nat)
    (henc : ∀ b : List Nat, b.length = 16 → (∀ y ∈ b, y < 256) →
      (encB b).length = 16 ∧ ∀ y ∈ encB b, y < 256) :
    ∀ (blocks : List (List Nat)) (prev : List Nat),
      prev.length = 16 → (∀ y ∈ prev, y < 256) →
      (∀ c ∈ blocks, c.length = 16 ∧ ∀ y ∈ c, y < 256) →
      ∀ c ∈ cbcEncrypt encB prev blocks,
        c.length = 16 ∧ ∀ y ∈ c, y < 256 := by
  intro blocks
  induction blocks with
  | nil => intro prev _ _ _ c hc; simp [cbcEncrypt] at hc
  | cons b bs ih =>
    intro prev hpl hpb hbl c hc
    have hb := hbl b (List.mem_cons_self b bs)
    have hxl : (xorBlock b prev).length = 16 := by
      rw [xorBlock_length b prev (by omega)]
      exact hb.1
    have hxb : ∀ y ∈ xorBlock b prev, y < 256 :=
      xorBlock_bytes b prev hb.2 hpb
    have hce := henc (xorBlock b prev) hxl hxb
    rcases List.mem_cons.mp hc with heq | hmem
    · rw [heq]
      exact hce
    · exact ih (encB (xorBlock b prev)) hce.1 hce.2
        (fun d hd => hbl d (List.mem_cons_of_mem b hd)) c hmem

theorem cbcDecrypt_cbcEncrypt (encB decB : List Nat → List Nat)
    (hinv : ∀ b, decB (encB b) = b)
    (henc : ∀ b : List Nat, b.length = 16 → (∀ y ∈ b, y < 256) →
      (encB b).length = 16 ∧ ∀ y ∈ encB b, y < 256) :
    ∀ (blocks : List (List Nat)) (prev : List Nat),
      prev.length = 16 → (∀ y ∈ prev, y < 256) →
      (∀ c ∈ blocks, c.length = 16 ∧ ∀ y ∈ c, y < 256) →
      cbcDecrypt decB prev (cbcEncrypt encB prev blocks) = blocks := by
  intro blocks
  induction blocks with
  | nil => intro prev _ _ _; rfl
  | cons b bs ih =>
    intro prev hpl hpb hbl
    have hb := hbl b (List.mem_cons_self b bs)
    have hxl : (xorBlock b prev).length = 16 := by
      rw [xorBlock_length b prev (by omega)]
      exact hb.1
    have hxb : ∀ y ∈ xorBlock b prev, y < 256 :=
      xorBlock_bytes b prev hb.2 hpb
    have hce := henc (xorBlock b prev) hxl hxb
    show xorBlock (decB (encB (xorBlock b prev))) prev ::
      cbcDecrypt decB (encB (xorBlock b prev))
        (cbcEncrypt encB (encB (xorBlock b prev)) bs) = b :: bs
    rw [hinv]
    rw [xorBlock_cancel b prev (by omega)]
    rw [ih (encB (xorBlock b prev)) hce.1 hce.2
      (fun d hd => hbl d (List.mem_cons_of_mem b hd))]

/-! flatten validity -/

theorem flatten_bytes (L : List (List Nat))
    (h : ∀ c ∈ L, ∀ y ∈ c, y < 256) : ∀ y ∈ L.flatten, y < 256 := by
  intro y hy
  obtain ⟨c, hc, hyc⟩ := List.mem_flatten.mp hy
  exact h c hc y hyc

theorem flatten_mod (L : List (List Nat))
    (h : ∀ c ∈ L, c.length = 16) : L.flatten.length % 16 = 0 := by
  induction L with
  | nil => rfl
  | cons c rest ih =>
    rw [List.flatten_cons, List.length_append]
    have hc := h c (List.mem_cons_self c rest)
    have hr := ih (fun d hd => h d (List.mem_cons_of_mem c hd))
    omega

/-! padding lemmas -/

theorem pkcs7pad_bytes (x : List Nat) (hx : ∀ y ∈ x, y < 256) :
    ∀ y ∈ pkcs7pad x, y < 256 := by
  intro y hy
  unfold pkcs7pad at hy
  rcases List.mem_append.mp hy with hm | hm
  · exact hx y hm
  · have := List.eq_of_mem_replicate hm
    omega

theorem pkcs7pad_mod (x : List Nat) : (pkcs7pad x).length % 16 = 0 := by
  unfold pkcs7pad
  rw [List.length_append, List.length_replicate]
  omega

theorem pkcs7unpad_pkcs7pad (x : List Nat) :
    pkcs7unpad (pkcs7pad x) = some x := by
  have hp1 : 1 ≤ 16 - x.length % 16 := by omega
  have hp16 : 16 - x.length % 16 ≤ 16 := by omega
  have hlen : (pkcs7pad x).length = x.length + (16 - x.length % 16) := by
    unfold pkcs7pad
    rw [List.length_append, List.length_replicate]
  have hrep : List.replicate (16 - x.length % 16) (16 - x.length % 16) =
      List.replicate (16 - x.length % 16 - 1) (16 - x.length % 16) ++
        [16 - x.length % 16] := by
    conv_lhs => rw [show 16 - x.length % 16 = (16 - x.length % 16 - 1) + 1
      by omega]
    rw [List.replicate_succ']
    rw [show (16 - x.length % 16 - 1) + 1 = 16 - x.length % 16 by omega]
  have hgl : (pkcs7pad x).getLast? = some (16 - x.length % 16) := by
    show (x ++ List.replicate (16 - x.length % 16)
      (16 - x.length % 16)).getLast? = _
    rw [hrep, ← List.append_assoc, List.getLast?_concat]
  unfold pkcs7unpad
  rw [hgl]
  dsimp only
  rw [if_pos ?cond]
  case cond =>
    refine ⟨hp1, hp16, by omega, ?_⟩
    rw [show (pkcs7pad x).length - (16 - x.length % 16) = x.length by omega]
    show ((x ++ List.replicate (16 - x.length % 16)
      (16 - x.length % 16)).drop x.length).all _ = true
    rw [List.drop_left, List.all_eq_true]
    intro y hy
    simp only [decide_eq_true_eq]
    exact List.eq_of_mem_replicate hy
  rw [show (pkcs7pad x).length - (16 - x.length % 16) = x.length by omega]
  show some ((x ++ List.replicate (16 - x.length % 16)
    (16 - x.length % 16)).take x.length) = some x
  rw [List.take_left]

/-! C8 battery -/

theorem jsSplit_length (sep : Char) : ∀ (s : Str),
    (jsSplit sep s).length = s.count sep + 1 := by
  intro s
  induction s with
  | nil => rfl
  | cons c rest ih =>
    simp only [jsSplit]
    cases hs : jsSplit sep rest with
    | nil => exact absurd hs (jsSplit_ne_nil sep rest)
    | cons f fs =>
      rw [hs] at ih
      dsimp only
      by_cases hc : c = sep
      · rw [if_pos hc]
        simp only [List.length_cons] at ih ⊢
        simp [List.count_cons, hc]
        omega
      · rw [if_neg hc]
        have hcs : ¬(sep = c) := fun h => hc h.symm
        simp only [List.length_cons] at ih ⊢
        simp [List.count_cons, hcs]
        omega

theorem takeWhile_colon (a b : Str) (ha : ':' ∉ a) :
    (a ++ ':' :: b).takeWhile (fun c => !(c == ':')) = a := by
  induction a with
  | nil => simp [List.takeWhile]
  | cons c cs ih =>
    have hc : ¬(c = ':') := fun h => ha (by rw [h]; exact List.mem_cons_self ':' cs)
    simp only [List.cons_append, List.takeWhile_cons]
    rw [if_pos (by simp [hc])]
    rw [ih (fun h => ha (List.mem_cons_of_mem c h))]

theorem dropWhile_colon (a b : Str) (ha : ':' ∉ a) :
    (a ++ ':' :: b).dropWhile (fun c => !(c == ':')) = ':' :: b := by
  induction a with
  | nil => simp [List.dropWhile]
  | cons c cs ih =>
    have hc : ¬(c = ':') := fun h => ha (by rw [h]; exact List.mem_cons_self ':' cs)
    simp only [List.cons_append, List.dropWhile_cons]
    rw [if_pos (by simp [hc])]
    exact ih (fun h => ha (List.mem_cons_of_mem c h))

theorem count_colon_two (a b : Str) (ha : ':' ∉ a) (hb : ':' ∉ b) :
    (a ++ ':' :: b).count ':' = 1 := by
  have hca : a.count ':' = 0 := List.count_eq_zero.mpr ha
  have hcb : b.count ':' = 0 := List.count_eq_zero.mpr hb
  rw [List.count_append, hca, List.count_cons_self, hcb]

/-! ## Vault claims -/

/-- C7: for every plaintext (byte string, each byte < 256) and every
16-byte IV, decrypting the result of encrypting with the process-wide key
returns the plaintext: `decrypt(encrypt(x)) = x`, for any fresh IV the
encrypt call draws. The keyed block cipher is abstract: any inverse pair
that maps valid 16-byte blocks to valid 16-byte blocks. -/
theorem decryptApiKey_encryptApiKey
    (encB decB : List Nat → List Nat)
    (hinv : ∀ b, decB (encB b) = b)
    (henc : ∀ b : List Nat, b.length = 16 → (∀ y ∈ b, y < 256) →
      (encB b).length = 16 ∧ ∀ y ∈ encB b, y < 256)
    (iv x : List Nat) (hivl : iv.length = 16) (hivb : ∀ y ∈ iv, y < 256)
    (hx : ∀ y ∈ x, y < 256) :
    decryptApiKey decB (encryptApiKey encB iv x) = Except.ok x := by
  have hpadb : ∀ y ∈ pkcs7pad x, y < 256 := pkcs7pad_bytes x hx
  have hpadm : (pkcs7pad x).length % 16 = 0 := pkcs7pad_mod x
  have hblocks : ∀ c ∈ chunks16 (pkcs7pad x),
      c.length = 16 ∧ ∀ y ∈ c, y < 256 := by
    intro c hc
    refine ⟨chunks16_blocks_len (pkcs7pad x).length (pkcs7pad x) le_rfl
      hpadm c hc, ?_⟩
    intro y hy
    have hmem : y ∈ (chunks16 (pkcs7pad x)).flatten :=
      List.mem_flatten.mpr ⟨c, hc, hy⟩
    rw [chunks16_flatten] at hmem
    exact hpadb y hmem
  have hctblocks :=
    cbcEncrypt_valid encB henc (chunks16 (pkcs7pad x)) iv hivl hivb hblocks
  have hctb : ∀ y ∈ (cbcEncrypt encB iv (chunks16 (pkcs7pad x))).flatten,
      y < 256 :=
    flatten_bytes _ (fun c hc => (hctblocks c hc).2)
  have hctm :
      (cbcEncrypt encB iv (chunks16 (pkcs7pad x))).flatten.length % 16 = 0 :=
    flatten_mod _ (fun c hc => (hctblocks c hc).1)
  unfold encryptApiKey decryptApiKey
  rw [jsSplit_two ':' _ _ (colon_not_mem_hexEncode iv hivb)
    (colon_not_mem_hexEncode _ hctb)]
  dsimp only
  rw [bufFromHex_hexEncode iv hivb]
  rw [if_pos hivl]
  rw [hexEncode_length]
  rw [if_pos (by omega)]
  rw [bufFromHex_hexEncode _ hctb]
  rw [if_pos hctm]
  rw [chunks16_of_blocks _ (fun c hc => (hctblocks c hc).1)]
  rw [cbcDecrypt_cbcEncrypt encB decB hinv henc (chunks16 (pkcs7pad x)) iv
    hivl hivb hblocks]
  rw [chunks16_flatten]
  rw [pkcs7unpad_pkcs7pad]

/-- Witness for C7: the identity block cipher, the zero IV and a two-byte
plaintext round-trip concretely. -/
theorem decryptApiKey_encryptApiKey_witness :
    (List.replicate 16 0 : List Nat).length = 16 ∧
    (∀ y ∈ (List.replicate 16 0 : List Nat), y < 256) ∧
    (∀ y ∈ ([7, 200] : List Nat), y < 256) ∧
    decryptApiKey (fun b => b)
      (encryptApiKey (fun b => b) (List.replicate 16 0) [7, 200]) =
      Except.ok [7, 200] :=
  ⟨by decide, by decide, by decide,
    decryptApiKey_encryptApiKey (fun b => b) (fun b => b)
      (fun _ => rfl) (fun b hl hb => ⟨hl, hb⟩)
      (List.replicate 16 0) [7, 200] (by decide) (by decide) (by decide)⟩

/-- Refutes C8 as stated: node's hex decoding truncates at the first
invalid character instead of failing, so a well-formed encrypted value
with trailing non-hex garbage appended to the ciphertext field is not of
the spec's `hex(iv):hex(ciphertext)` shape, yet `decryptApiKey` decodes
the valid prefix and returns the original plaintext. -/
theorem decryptApiKey_truncation_counterexample :
    wellFormedEncrypted
      (encryptApiKey (fun b => b) (List.replicate 16 0) [7, 200] ++
        ['z', 'z']) = false ∧
    decryptApiKey (fun b => b)
      (encryptApiKey (fun b => b) (List.replicate 16 0) [7, 200] ++
        ['z', 'z']) = Except.ok [7, 200] := by
  refine ⟨by decide, ?_⟩
  rfl

/-- C8 (amended): the field-count half of the claim holds — every input
whose separator count is not exactly one splits into a field count other
than two, and `decryptApiKey` always fails on it with the decryption
error. The malformed-field half does not hold in general, because node's
hex decoding truncates rather than rejects (see the counterexample). -/
theorem decryptApiKey_not_two_fields (decB : List Nat → List Nat) (s : Str)
    (h : s.count ':' ≠ 1) :
    decryptApiKey decB s = Except.error DecryptionError.failed := by
  have hlen := jsSplit_length ':' s
  unfold decryptApiKey
  cases hsp : jsSplit ':' s with
  | nil => exact absurd hsp (jsSplit_ne_nil ':' s)
  | cons a tl =>
    cases tl with
    | nil => rfl
    | cons b tl2 =>
      cases tl2 with
      | nil =>
        rw [hsp] at hlen
        simp only [List.length_cons, List.length_nil] at hlen
        exact absurd (by omega) h
      | cons c tl3 => rfl

/-- Witness for C8: a concrete string with no separator at all. -/
theorem decryptApiKey_not_two_fields_witness :
    ("zz".data).count ':' ≠ 1 ∧
    decryptApiKey (fun b => b) ("zz".data) =
      Except.error DecryptionError.failed :=
  ⟨by decide, decryptApiKey_not_two_fields (fun b => b) ("zz".data)
    (by decide)⟩


end Hygieia
